import Mathlib

/-!
# Verification of the typing-bot core (compiler + buffer interpreter)

Shallow embedding of the structured-script compiler
(`structured_capture.py`, class `StructuredParser`), of the buffer
interpreter (`struct_editor.py`, `StructEditor._simulate_typing_result`
and `_handle_arrow_command`), and of the partial-prefix reconstructor
(`struct_editor.py`, `StructEditor._build_partial_content`).

Strings are modelled as `List Char` (`Str`).  The canonical stream is a
`Str` whose control units are the literal characters the Python code uses:
`\x07` ("enter arrow mode", Python `'\a'`), `\x08` (backspace, `'\b'`),
`\x09` (tab) and `'\n'`.  Python's character classes are modelled at ASCII
granularity, which covers every script this repository manipulates.
-/

namespace TypingBot

/-- Text, modelled as a list of characters (Python `str`). -/
abbrev Str := List Char

/-- Python `'\a'` — the "enter arrow mode" control unit. -/
def BEL : Char := Char.ofNat 7

/-- Python `'\b'` — the backspace control unit. -/
def BS : Char := Char.ofNat 8

/-- Python `'\t'` — the tab control unit. -/
def TAB : Char := Char.ofNat 9

/-- Python `'\n'` — the newline control unit. -/
def NL : Char := '\n'

/-- A left brace (used by the `\x7b\x7bSHORTCUT\x7d\x7d` macro syntax). -/
def lbrace : Char := Char.ofNat 123

/-- A right brace. -/
def rbrace : Char := Char.ofNat 125

/-- Python `str` whitespace at ASCII granularity: the class tested by
`str.strip` / `str.split` / regex `\s`. -/
def isPySpace (c : Char) : Bool :=
  c == ' ' || c == TAB || c == NL || c == '\r' || c == Char.ofNat 11 || c == Char.ofNat 12

/-- ASCII letter (regex `[A-Z]` under `re.IGNORECASE`). -/
def isAsciiLetter (c : Char) : Bool :=
  ('A' ≤ c && c ≤ 'Z') || ('a' ≤ c && c ≤ 'z')

/-- ASCII decimal digit. -/
def isAsciiDigit (c : Char) : Bool := '0' ≤ c && c ≤ '9'

/-- Python `str.lstrip()`. -/
def lstrip (s : Str) : Str := s.dropWhile isPySpace

/-- Python `str.rstrip()`. -/
def rstrip (s : Str) : Str := (s.reverse.dropWhile isPySpace).reverse

/-- Python `str.strip()`. -/
def pystrip (s : Str) : Str := rstrip (lstrip s)

/-- Python `s.split('\n')`: always returns at least one piece. -/
def splitNL : Str → List Str
  | [] => [[]]
  | c :: t =>
    if c = NL then [] :: splitNL t
    else
      match splitNL t with
      | [] => [[c]]
      | h :: r => (c :: h) :: r

/-- Python `'\n'.join(lines)`. -/
def joinNL : List Str → Str
  | [] => []
  | [l] => l
  | l :: ls => l ++ NL :: joinNL ls

/-- One step of Python `str.split()` (whitespace tokenisation), fuelled by
the length of the string. -/
def splitWsGo : Nat → Str → List Str
  | 0, _ => []
  | n + 1, s =>
    let s1 := s.dropWhile isPySpace
    match s1 with
    | [] => []
    | _ :: _ =>
      let w := s1.takeWhile (fun c => !isPySpace c)
      w :: splitWsGo n (s1.drop w.length)

/-- Python `str.split()` with no separator: split on whitespace runs,
dropping empty tokens. -/
def splitWs (s : Str) : List Str := splitWsGo (s.length + 1) s

/-- Number of leading whitespace characters: Python
`len(line) - len(line.lstrip())`. -/
def indentOf (l : Str) : Nat := (l.takeWhile isPySpace).length

/-- Digit sequence with the underscore grouping Python's `int()` accepts:
digits with single underscores strictly between digits. -/
def validDigitRun : Str → Bool
  | [] => false
  | [c] => isAsciiDigit c
  | c :: '_' :: t => isAsciiDigit c && validDigitRun t
  | c :: d :: t => isAsciiDigit c && validDigitRun (d :: t)

/-- Numeric value of a digit/underscore run. -/
def digitRunVal (s : Str) : Nat :=
  s.foldl (fun acc c => if isAsciiDigit c then acc * 10 + (c.toNat - '0'.toNat) else acc) 0

/-- Python `int(token)` on a whitespace-free token, at ASCII granularity:
optional sign, then digits with optional single underscores between them. -/
def parseIntPy (s : Str) : Option Int :=
  match s with
  | '+' :: r => if validDigitRun r then some (Int.ofNat (digitRunVal r)) else none
  | '-' :: r => if validDigitRun r then some (-(Int.ofNat (digitRunVal r))) else none
  | r => if validDigitRun r then some (Int.ofNat (digitRunVal r)) else none

/-- Python `escape_seq * count` (string repetition; non-positive count
yields the empty string). -/
def repeatStr (s : Str) (n : Int) : Str := (List.replicate n.toNat s).flatten

/-! ## Command tables (`StructuredParser.__init__`) -/

/-- The table `StructuredParser.generic_commands`. -/
def genericCommands : List (String × String) :=
  [("ARROW_UP", "\x07u"),
   ("ARROW_DOWN", "\x07d"),
   ("ARROW_LEFT", "\x07l"),
   ("ARROW_RIGHT", "\x07r"),
   ("SHIFT_PRESS", "\x07s"),
   ("SHIFT_RELEASE", "\x07S"),
   ("END", "\x07e"),
   ("HOME", "\x07b"),
   ("CTRL_END", "\x07E"),
   ("CTRL_HOME", "\x07B"),
   ("PAGE_UP", "\x07U"),
   ("PAGE_DOWN", "\x07D"),
   ("ESCAPE", "\x07C"),
   ("BACKSPACE", "\x08"),
   ("ENTER", "\n"),
   ("SLEEP", "\x07z"),
   ("EXIT_ARROW_MODE", "\x07Q")]

/-- The table `StructuredParser.tool_specific_commands['VIM']`. -/
def vimCommands : List (String × String) :=
  [("NORMAL_MODE", "\x07C"),
   ("INSERT_MODE", "i"),
   ("APPEND_MODE", "a"),
   ("VISUAL_MODE", "v"),
   ("COMMAND_MODE", ":"),
   ("SAVE", ":w\n"),
   ("QUIT", ":q\n"),
   ("SAVE_QUIT", ":wq\n"),
   ("FORCE_QUIT", ":q!\n"),
   ("DELETE_LINE", "dd"),
   ("YANK_LINE", "yy"),
   ("PASTE", "p"),
   ("UNDO", "u"),
   ("REDO", "\x07r"),
   ("WORD_FORWARD", "w"),
   ("WORD_BACKWARD", "b"),
   ("LINE_END", "$"),
   ("LINE_START", "0"),
   ("FILE_TOP", "gg"),
   ("FILE_BOTTOM", "G")]

/-- The table `StructuredParser.tool_specific_commands['SHELL']`. -/
def shellCommands : List (String × String) :=
  [("CLEAR", "clear\n"),
   ("CTRL_C", "\x07"),
   ("CTRL_D", "\x07"),
   ("TAB_COMPLETE", "\x09"),
   ("HISTORY_UP", "\x07u"),
   ("HISTORY_DOWN", "\x07d"),
   ("MOVE_TO_START", "\x07b"),
   ("MOVE_TO_END", "\x07e"),
   ("DELETE_WORD", "\x07"),
   ("KILL_LINE", "\x07")]

/-- The table `StructuredParser.tool_specific_commands['VSCODE']`. -/
def vscodeCommands : List (String × String) :=
  [("SAVE", "\x07s"),
   ("COPY", "\x07c"),
   ("PASTE", "\x07v"),
   ("UNDO", "\x07z"),
   ("REDO", "\x07y"),
   ("FIND", "\x07f"),
   ("COMMENT", "\x07/"),
   ("FORMAT", "\x07S\x07f"),
   ("COMMAND_PALETTE", "\x07S\x07p")]

/-- The table `StructuredParser.tool_specific_commands['PYTHON']`. -/
def pythonCommands : List (String × String) :=
  [("IMPORT_NUMPY", "import numpy as np\n"),
   ("IMPORT_PANDAS", "import pandas as pd\n"),
   ("IMPORT_MATPLOTLIB", "import matplotlib.pyplot as plt\n"),
   ("PRINT_DEBUG", "print(f\"DEBUG: \x7b\x7d\"))\x07lllll"),
   ("IF_NAME_MAIN", "if __name__ == \"__main__\":\n    "),
   ("TRY_EXCEPT", "try:\n    \nexcept Exception as e:\n    print(f\"Error: \x7be\x7d\")\x07uuuu\x07e")]

/-- The registry `StructuredParser.tool_specific_commands`: the per-tool override tables. -/
def toolTable : String → Option (List (String × String))
  | "VIM" => some vimCommands
  | "SHELL" => some shellCommands
  | "VSCODE" => some vscodeCommands
  | "PYTHON" => some pythonCommands
  | _ => none

/-- The active command table for a section:
`command_map = generic_commands.copy(); command_map.update(tool_table)` —
tool entries take precedence over the generic table. -/
def commandMapFor (tool : Option String) (cmd : String) : Option String :=
  match tool with
  | some t =>
    match toolTable t with
    | some tbl => ((tbl.lookup cmd).orElse (fun _ => genericCommands.lookup cmd))
    | none => genericCommands.lookup cmd
  | none => genericCommands.lookup cmd

/-- The commands the processor repeats `count` times
(`['ARROW_UP', 'ARROW_DOWN', 'ARROW_LEFT', 'ARROW_RIGHT', 'BACKSPACE', 'ENTER']`). -/
def repeatableCommands : List String :=
  ["ARROW_UP", "ARROW_DOWN", "ARROW_LEFT", "ARROW_RIGHT", "BACKSPACE", "ENTER"]

/-! ## Diagnostics channel

The Python code surfaces non-fatal warnings with `print(...)`; they are
modelled as a side list of tagged values. -/

/-- A non-fatal diagnostic emitted while processing a Commands section. -/
inductive Diag
  /-- Message "Warning: Invalid command format '…', skipping" — malformed count. -/
  | invalidFormat (line : Str)
  /-- Message "Warning: Command '…' does not support repetition, ignoring count". -/
  | noRepeat (cmd : String)
  /-- Message "Warning: Unknown command '…' in line '…', skipping". -/
  | unknownCommand (cmd : String) (line : Str)
deriving DecidableEq, Repr

/-! ## Commands section processing (`_process_commands_section`) -/

/-- The count of a command line: `1` when no second token is given, else
Python `int(parts[1])` (`None` models the `ValueError` branch). -/
def resolveCount : List Str → Option Int
  | [] => some 1
  | w2 :: _ => parseIntPy w2

/-- The body of the per-line loop of `_process_commands_section`: strip the
line, skip blanks and comments, split into command name and optional count,
resolve against the active table and emit tokens plus diagnostics. -/
def processCommandLine (cmap : String → Option String) (rawLine : Str) : Str × List Diag :=
  let line := pystrip rawLine
  if line.isEmpty then ([], [])
  else if line.head? = some '#' then ([], [])
  else
    match splitWs line with
    | [] => ([], [])
    | w1 :: restTok =>
      let command := String.mk (w1.map Char.toUpper)
      match resolveCount restTok with
      | none => ([], [Diag.invalidFormat line])
      | some count =>
        match cmap command with
        | some seq =>
          if command ∈ repeatableCommands then (repeatStr seq.toList count, [])
          else if command = "SLEEP" then (repeatStr seq.toList count, [])
          else if 1 < count then (seq.toList, [Diag.noRepeat command])
          else (seq.toList, [])
        | none => ([], [Diag.unknownCommand command line])

/-- The per-line loop of `_process_commands_section`, concatenating token
output and diagnostics in line order. -/
def processCommandLines (cmap : String → Option String) : List Str → Str × List Diag
  | [] => ([], [])
  | l :: rest =>
    let r := processCommandLine cmap l
    let r2 := processCommandLines cmap rest
    (r.1 ++ r2.1, r.2 ++ r2.2)

/-- The dedent block of `_process_commands_section`: common indentation of
non-blank, non-comment lines is removed; comment lines are fully stripped;
blank lines become empty. -/
def dedentCommandLines (lines : List Str) : List Str :=
  match lines with
  | [] => []
  | _ :: _ =>
    let nonEmpty := lines.filter
      (fun l => !(pystrip l).isEmpty && !((pystrip l).head? == some '#'))
    match nonEmpty.map indentOf with
    | [] => lines
    | x :: xs =>
      let minIndent := xs.foldl Nat.min x
      lines.map (fun l =>
        if !(pystrip l).isEmpty then
          if (pystrip l).head? == some '#' then pystrip l
          else if minIndent ≤ l.length then l.drop minIndent
          else l
        else [])

/-- The function `_process_commands_section`: strip the blob, split into lines, dedent,
then process each line against the active command table. -/
def processCommandsSection (content : Str) (tool : Option String) : Str × List Diag :=
  let lines := splitNL (pystrip content)
  processCommandLines (commandMapFor tool) (dedentCommandLines lines)

/-! ## Code section processing (`_process_code_section`, `_expand_tool_shortcuts`) -/

/-- Leftmost, non-overlapping literal substring replacement — the effect of
`re.sub(re.escape(pat), rep, s)` for the shortcut patterns (which contain no
regex metacharacters after escaping and no backslashes in the replacement). -/
def replaceAllSub (pat rep : Str) : Nat → Str → Str
  | 0, s => s
  | _ + 1, [] => []
  | n + 1, c :: t =>
    if pat.isPrefixOf (c :: t) then rep ++ replaceAllSub pat rep n ((c :: t).drop pat.length)
    else c :: replaceAllSub pat rep n t

/-- The function `_expand_tool_shortcuts`: replace each `\x7b\x7bSHORTCUT\x7d\x7d` occurrence by the
tool table's expansion, iterating the table entries in order. -/
def expandToolShortcuts (content : Str) (tool : String) : Str :=
  match toolTable tool with
  | none => content
  | some tbl =>
    tbl.foldl
      (fun acc kv =>
        let pat := lbrace :: lbrace :: kv.1.toList ++ [rbrace, rbrace]
        replaceAllSub pat kv.2.toList (acc.length + 1) acc)
      content

/-- The function `_process_code_section`: split into lines, strip the common indentation
of non-blank lines (blank lines become empty), rejoin, then expand tool
shortcuts when the section names a registered tool.  All-blank content is
returned unchanged. -/
def processCodeSection (content : Str) (tool : Option String) : Str :=
  let lines := splitNL content
  let nonEmpty := lines.filter (fun l => !(pystrip l).isEmpty)
  if nonEmpty.isEmpty then content
  else
    let minIndent :=
      match nonEmpty.map indentOf with
      | [] => 0
      | x :: xs => xs.foldl Nat.min x
    let ded := lines.map (fun l =>
      if !(pystrip l).isEmpty then
        if minIndent ≤ l.length then l.drop minIndent else l
      else [])
    let processed := joinNL ded
    match tool with
    | some t => if (toolTable t).isSome then expandToolShortcuts processed t else processed
    | none => processed

/-! ## Section splitter (`_split_into_sections`)

The splitter is a single `re.finditer` over the pattern

  `<(CODE|COMMANDS)(?:\s*:\s*([A-Z]+))?\s*>\s*\n(.*?)\n\s*</\1(?:\s*:\s*[A-Z]+)?>`

with `re.DOTALL | re.IGNORECASE`.  The functions below implement the
pattern's backtracking behaviour directly:

* the open tag's `(?:\s*:\s*([A-Z]+))?\s*>` is deterministic (the optional
  tool group either matches through the closing `>` or is skipped);
* the greedy `\s*\n` after the open tag tries candidate content starts
  just after each newline of the following whitespace run, latest first;
* the lazy `(.*?)` takes the earliest position where `\n\s*</KIND…>`
  matches, since the close tag ends the pattern;
* `re.finditer` takes the leftmost match, then resumes after its end, and
  the text between matches becomes stripped plain-text sections.
-/

/-- A parsed section: the tuples `('CODE'|'COMMANDS'|'TEXT', content, tool)`
produced by `_split_into_sections`. -/
inductive SKind
  | code
  | commands
  | text
deriving DecidableEq, Repr

/-- One element of the section list. -/
structure Section where
  kind : SKind
  content : Str
  tool : Option String
deriving DecidableEq, Repr

/-- Case-insensitive literal match (ASCII): consumes `pat` from the input,
returning the remainder. -/
def matchKeywordCI : Str → Str → Option Str
  | [], s => some s
  | _ :: _, [] => none
  | p :: ps, c :: cs => if p.toUpper = c.toUpper then matchKeywordCI ps cs else none

/-- The open tag after its kind name: `(?:\s*:\s*([A-Z]+))?\s*>`.  The
greedy optional tool group is attempted first; its failure cannot be
repaired by backtracking (whitespace never matches `>` or a letter), so a
simple two-way attempt is exact. -/
def matchOpenTail (s : Str) : Option (Option String × Str) :=
  let attempt : Option (Option String × Str) :=
    match s.dropWhile isPySpace with
    | ':' :: s2 =>
      let s3 := s2.dropWhile isPySpace
      let letters := s3.takeWhile isAsciiLetter
      if letters.isEmpty then none
      else
        match (s3.drop letters.length).dropWhile isPySpace with
        | '>' :: s6 => some (some (String.mk (letters.map Char.toUpper)), s6)
        | _ => none
    | _ => none
  match attempt with
  | some r => some r
  | none =>
    match s.dropWhile isPySpace with
    | '>' :: s2 => some (none, s2)
    | _ => none

/-- The close tag `</\1(?:\s*:\s*[A-Z]+)?>` (no whitespace between the tag
name and `>` unless the tool suffix is present; the backreference matches
the kind name case-insensitively). -/
def matchCloseTag (kind : String) (s : Str) : Option Str :=
  match s with
  | '<' :: '/' :: s1 =>
    match matchKeywordCI kind.toList s1 with
    | none => none
    | some s2 =>
      let attempt : Option Str :=
        match s2.dropWhile isPySpace with
        | ':' :: t2 =>
          let t3 := t2.dropWhile isPySpace
          let letters := t3.takeWhile isAsciiLetter
          if letters.isEmpty then none
          else
            match t3.drop letters.length with
            | '>' :: t4 => some t4
            | _ => none
        | _ => none
      match attempt with
      | some r => some r
      | none => match s2 with | '>' :: t => some t | _ => none
  | _ => none

/-- The lazy content scan: find the earliest `\n` followed by `\s*` and the
close tag; everything before it is the section content (group 3). -/
def scanClose (kind : String) : Str → Option (Str × Str)
  | [] => none
  | c :: t =>
    if c = NL then
      match matchCloseTag kind (t.dropWhile isPySpace) with
      | some rest => some ([], rest)
      | none =>
        match scanClose kind t with
        | some (content, rest) => some (c :: content, rest)
        | none => none
    else
      match scanClose kind t with
      | some (content, rest) => some (c :: content, rest)
      | none => none

/-- The greedy `\s*\n` after the open tag: candidate content starts are the
positions just after each newline inside the whitespace run that follows
`>`, tried latest first. -/
def openCandidates (s : Str) : List Str :=
  let run := s.takeWhile isPySpace
  (((List.range run.length).filter (fun j => run.getD j ' ' = NL)).reverse).map
    (fun j => s.drop (j + 1))

/-- Attempt the whole section pattern at the given position.  The
alternation tries `CODE` before `COMMANDS`; the two names diverge on their
third letter, so at most one can proceed. -/
def matchSectionAt (s : Str) : Option (Section × Str) :=
  match s with
  | '<' :: s1 =>
    let tryKind : String → SKind → Option (Section × Str) := fun kname skind =>
      match matchKeywordCI kname.toList s1 with
      | none => none
      | some s2 =>
        match matchOpenTail s2 with
        | none => none
        | some (tool, s3) =>
          (openCandidates s3).findSome? (fun cand =>
            match scanClose kname cand with
            | some (content, rest) => some (⟨skind, content, tool⟩, rest)
            | none => none)
    match tryKind "CODE" SKind.code with
    | some r => some r
    | none => tryKind "COMMANDS" SKind.commands
  | _ => none

/-- The finditer loop: scan left to right, emitting the stripped text
between matches as `TEXT` sections.  `pend` holds the scanned-over text in
reverse; the fuel is the input length plus one (every step consumes at
least one character). -/
def splitGo : Nat → Str → Str → List Section → List Section
  | 0, _, pend, acc =>
    acc ++ (let t := pystrip pend.reverse; if t.isEmpty then [] else [⟨SKind.text, t, none⟩])
  | n + 1, s, pend, acc =>
    match matchSectionAt s with
    | some (sec, rest) =>
      let t := pystrip pend.reverse
      splitGo n rest [] (acc ++ (if t.isEmpty then [] else [⟨SKind.text, t, none⟩]) ++ [sec])
    | none =>
      match s with
      | [] =>
        acc ++ (let t := pystrip pend.reverse; if t.isEmpty then [] else [⟨SKind.text, t, none⟩])
      | c :: cs => splitGo n cs (c :: pend) acc

/-- The function `_split_into_sections`. -/
def splitSections (s : Str) : List Section := splitGo (s.length + 1) s [] []

/-! ## Stream assembly (`parse_structured_file`) -/

/-- Process one section: `CODE` and `COMMANDS` run their processors, plain
text passes through verbatim. -/
def processOneSection (sec : Section) : Str × List Diag :=
  match sec.kind with
  | SKind.code => (processCodeSection sec.content sec.tool, [])
  | SKind.commands => processCommandsSection sec.content sec.tool
  | SKind.text => (sec.content, [])

/-- The assembly loop of `parse_structured_file`: concatenate every
section's canonical output in source order (`''.join(result)`), collecting
diagnostics. -/
def processSections : List Section → Str × List Diag
  | [] => ([], [])
  | sec :: rest =>
    let r := processOneSection sec
    let r2 := processSections rest
    (r.1 ++ r2.1, r.2 ++ r2.2)

/-- The function `parse_structured_file` on the file's text: split into sections, then
assemble the canonical stream. -/
def parseStructured (s : Str) : Str × List Diag := processSections (splitSections s)

/-! ## Buffer interpreter (`_simulate_typing_result`, `_handle_arrow_command`)

The Python function returns the buffer lines with a marker glyph `│`
inserted at the cursor; the embedding carries the cursor explicitly as a
`(line, column)` pair — the marker's position — so properties about the
cursor can be stated directly.
-/

/-- Buffer, cursor line, and cursor column — the interpreter's running
state (the marker's position stands for the cursor). -/
structure EdState where
  buffer : List Str
  line : Nat
  col : Nat
deriving DecidableEq, Repr

/-- Indexing `text_buffer[i]`; the Python code only indexes within bounds, so the
default is never observable there. -/
def lineAt (buf : List Str) (i : Nat) : Str := buf.getD i []

/-- The `while len(text_buffer) <= cursor_line: text_buffer.append("")`
loop at the top of each interpreter iteration. -/
def ensureLines (buf : List Str) (l : Nat) : List Str :=
  buf ++ List.replicate (l + 1 - buf.length) []

/-- The function `_handle_arrow_command`: apply one arrow-mode directive, returning the
new cursor.  Directives with no cursor effect (sleep, shift, …) fall
through unchanged. -/
def handleArrow (cmd : Char) (buf : List Str) (l c : Nat) : Nat × Nat :=
  if cmd = 'u' then
    (l - 1, if l - 1 < buf.length then Nat.min c (lineAt buf (l - 1)).length else c)
  else if cmd = 'd' then
    (Nat.min buf.length (l + 1),
      if Nat.min buf.length (l + 1) < buf.length then
        Nat.min c (lineAt buf (Nat.min buf.length (l + 1))).length
      else c)
  else if cmd = 'l' then
    if 0 < c then (l, c - 1)
    else if 0 < l then (l - 1, if l - 1 < buf.length then (lineAt buf (l - 1)).length else 0)
    else (l, c)
  else if cmd = 'r' then
    if l < buf.length ∧ c < (lineAt buf l).length then (l, c + 1)
    else if l < buf.length - 1 then (l + 1, 0)
    else (l, c)
  else if cmd = 'b' then (l, 0)
  else if cmd = 'e' then (l, if l < buf.length then (lineAt buf l).length else c)
  else if cmd = 'B' then (0, 0)
  else if cmd = 'E' then
    ((if buf.isEmpty then 0 else buf.length - 1),
      if (if buf.isEmpty then 0 else buf.length - 1) < buf.length then
        (lineAt buf (if buf.isEmpty then 0 else buf.length - 1)).length
      else c)
  else if cmd = 'U' then
    (l - 10, if l - 10 < buf.length then Nat.min c (lineAt buf (l - 10)).length else c)
  else if cmd = 'D' then
    (Nat.min buf.length (l + 10),
      if Nat.min buf.length (l + 10) < buf.length then
        Nat.min c (lineAt buf (Nat.min buf.length (l + 10))).length
      else c)
  else (l, c)

/-- One Normal-state transition for a non-`\a` unit (the buffer has already
been extended by `ensureLines`, as at the top of the Python loop):
newline splits, backspace deletes or joins, tab inserts four spaces,
printable characters insert, anything else is skipped. -/
def stepCore (st : EdState) (ch : Char) : EdState :=
  if ch = NL then
    let cur := if st.line < st.buffer.length then lineAt st.buffer st.line else []
    let b1 := st.buffer.set st.line (cur.take st.col)
    ⟨b1.insertIdx (st.line + 1) (cur.drop st.col), st.line + 1, 0⟩
  else if ch = BS then
    if 0 < st.col then
      let cur := lineAt st.buffer st.line
      ⟨st.buffer.set st.line (cur.take (st.col - 1) ++ cur.drop st.col), st.line, st.col - 1⟩
    else if 0 < st.line then
      let prev := lineAt st.buffer (st.line - 1)
      let cur := if st.line < st.buffer.length then lineAt st.buffer st.line else []
      let b1 := st.buffer.set (st.line - 1) (prev ++ cur)
      let b2 := if st.line < b1.length then b1.eraseIdx st.line else b1
      ⟨b2, st.line - 1, prev.length⟩
    else st
  else if ch = TAB then
    let cur := lineAt st.buffer st.line
    ⟨st.buffer.set st.line (cur.take st.col ++ [' ', ' ', ' ', ' '] ++ cur.drop st.col),
      st.line, st.col + 4⟩
  else if 32 ≤ ch.toNat ∧ ch.toNat ≤ 126 then
    let cur := lineAt st.buffer st.line
    ⟨st.buffer.set st.line (cur.take st.col ++ ch :: cur.drop st.col), st.line, st.col + 1⟩
  else st

/-- One full iteration of the interpreter loop on a single non-`\a` unit:
extend the buffer to the cursor line, then dispatch. -/
def stepChar (st : EdState) (ch : Char) : EdState :=
  stepCore ⟨ensureLines st.buffer st.line, st.line, st.col⟩ ch

/-- The interpreter's main loop: `\a` consumes the following unit as an
arrow-mode directive (a trailing lone `\a` only extends the buffer);
every other unit goes through `stepCore`. -/
def interpGo : Str → EdState → EdState
  | [], st => st
  | ch :: rest, st =>
    let buf := ensureLines st.buffer st.line
    if ch = BEL then
      match rest with
      | [] => ⟨buf, st.line, st.col⟩
      | d :: rest' =>
        let p := handleArrow d buf st.line st.col
        interpGo rest' ⟨buf, p.1, p.2⟩
    else
      interpGo rest (stepCore ⟨buf, st.line, st.col⟩ ch)

/-- The trailing `while len(text_buffer) > 1 and text_buffer[-1] == ""`
pop loop.  The cursor line holds the marker glyph in the Python output and
is therefore never empty; the explicit cursor-index guard is that fact. -/
def dropTrailingGo (line : Nat) : Nat → List Str → List Str
  | 0, buf => buf
  | n + 1, buf =>
    if 1 < buf.length ∧ buf.getLast? = some [] ∧ buf.length - 1 ≠ line then
      dropTrailingGo line n buf.dropLast
    else buf

/-- The end of `_simulate_typing_result`: clamp the column into the cursor
line (`max(0, min(cursor_col, len(line)))`), or — when the cursor line ran
past the buffer — append the marker as a fresh final line; then pop
trailing empty lines. -/
def finalizeState (st : EdState) : EdState :=
  if st.line < st.buffer.length then
    let c := Nat.min st.col (lineAt st.buffer st.line).length
    ⟨dropTrailingGo st.line st.buffer.length st.buffer, st.line, c⟩
  else
    let buf := st.buffer ++ [[]]
    ⟨dropTrailingGo st.buffer.length buf.length buf, st.buffer.length, 0⟩

/-- The function `_simulate_typing_result` as a whole: run the stream from one empty
line with the cursor at the origin, then finalize. -/
def interpretStream (s : Str) : EdState := finalizeState (interpGo s ⟨[[]], 0, 0⟩)

/-! ## Partial-prefix reconstructor (`_build_partial_content`) -/

/-- Python `s.startswith(p)` for a literal pattern. -/
def startsWith (p : String) (l : Str) : Bool := p.toList.isPrefixOf l

/-- The inner loop of `_build_partial_content`: collect section content
until the closing tag (or the cutoff / end of input), returning the
collected lines, the closing line when found, and the next index. -/
def bpInner (lines : List Str) (up : Nat) (closing : String) :
    Nat → Nat → List Str → List Str × Option Str × Nat
  | 0, i, content => (content, none, i)
  | n + 1, i, content =>
    if i ≤ up ∧ i < lines.length then
      let cur := lineAt lines i
      if startsWith closing (pystrip cur) then (content, some cur, i + 1)
      else bpInner lines up closing n (i + 1) (content ++ [cur])
    else (content, none, i)

/-- The outer loop of `_build_partial_content`: walk the lines up to the
cutoff; open tags start a section (closed by the real close tag, or by a
synthetic one when the cutoff truncates a non-empty body); standalone
close tags are skipped; other tag-like lines are dropped; plain lines pass
through. -/
def bpGo (lines : List Str) (up : Nat) : Nat → Nat → List Str → List Str
  | 0, _, acc => acc
  | n + 1, i, acc =>
    if i ≤ up ∧ i < lines.length then
      let line := pystrip (lineAt lines i)
      if startsWith "<CODE" line ∨ startsWith "<COMMANDS" line then
        let ty : String := if startsWith "<CODE" line then "CODE" else "COMMANDS"
        let r := bpInner lines up ("</" ++ ty) (up + 2) (i + 1) []
        let seg : List Str :=
          match r.2.1 with
          | some closeLine => r.1 ++ [closeLine]
          | none => if r.1.isEmpty then [] else r.1 ++ [("</" ++ ty ++ ">").toList]
        bpGo lines up n r.2.2 (acc ++ [lineAt lines i] ++ seg)
      else if startsWith "</" line then bpGo lines up n (i + 1) acc
      else if !(line.head? = some '<' ∧ line.getLast? = some '>') then
        bpGo lines up n (i + 1) (acc ++ [lineAt lines i])
      else bpGo lines up n (i + 1) acc
    else acc

/-- The function `_build_partial_content`, producing the reconstructed line list. -/
def buildPartialLines (lines : List Str) (up : Nat) : List Str :=
  bpGo lines up (up + 2) 0 []

/-- The function `_build_partial_content` (joined, as the Python function returns it). -/
def buildPartialContent (lines : List Str) (up : Nat) : Str :=
  joinNL (buildPartialLines lines up)

/-! ## Concrete material for the testable-property claims -/

/-- The example script of the spec: a Code section typing `Hello World`,
a Commands section moving left five times and backspacing five times, and
a Code section typing `Beautiful`. -/
def demoScript : Str :=
  ("<CODE>\n    Hello World\n</CODE>\n\n<COMMANDS>\n    ARROW_LEFT 5\n    BACKSPACE 5\n</COMMANDS>\n\n<CODE>\n    Beautiful\n</CODE>" : String).toList

/-- The canonical stream the compiler produces for `demoScript`. -/
def demoStream : Str :=
  ("Hello World\x07l\x07l\x07l\x07l\x07l\x08\x08\x08\x08\x08Beautiful" : String).toList

/-! ## Specification vocabulary for the round-trip and reconstructor claims -/

/-- Prepend a partial line onto the first piece of a split: typing `cs`
starting from an open line `cur` extends `cur` with the first line of
`cs`. -/
def glueFirst (cur : Str) : List Str → List Str
  | [] => [cur]
  | h :: t => (cur ++ h) :: t

/-- The kind of a taggable section (the reconstructor handles exactly
`CODE` and `COMMANDS`). -/
inductive TagKind
  | code
  | commands
deriving DecidableEq, Repr

/-- The tag name as written in the script. -/
def tagName : TagKind → String
  | TagKind.code => "CODE"
  | TagKind.commands => "COMMANDS"

/-- The open-tag test the reconstructor applies to a stripped line. -/
def openMark : TagKind → String
  | TagKind.code => "<CODE"
  | TagKind.commands => "<COMMANDS"

/-- The close-tag test (`f'</{section_type}'`). -/
def closeMark : TagKind → String
  | TagKind.code => "</CODE"
  | TagKind.commands => "</COMMANDS"

/-- The synthetic close tag (`f'</{section_type}>'`). -/
def synthClose : TagKind → Str
  | TagKind.code => ("</CODE>" : String).toList
  | TagKind.commands => ("</COMMANDS>" : String).toList

/-- A line whose stripped form opens a section of kind `t`. -/
def IsOpenLine (t : TagKind) (l : Str) : Prop := startsWith (openMark t) (pystrip l) = true

/-- A line whose stripped form the reconstructor takes as a close tag of
kind `t`. -/
def IsCloseLine (t : TagKind) (l : Str) : Prop := startsWith (closeMark t) (pystrip l) = true

/-- One item of the script prefix preceding the straddling section:
a plain (non-tag-like) line, a standalone orphan close tag, or a complete
section. -/
inductive PItem
  | plain (l : Str)
  | orphan (l : Str)
  | closed (t : TagKind) (openL : Str) (body : List Str) (closeL : Str)

/-- Well-formedness of a prefix item, matching the branch the
reconstructor's outer loop takes on its lines. -/
def ItemOK : PItem → Prop
  | PItem.plain l =>
      startsWith "<CODE" (pystrip l) = false ∧ startsWith "<COMMANDS" (pystrip l) = false ∧
        startsWith "</" (pystrip l) = false ∧
        ¬ ((pystrip l).head? = some '<' ∧ (pystrip l).getLast? = some '>')
  | PItem.orphan l =>
      startsWith "<CODE" (pystrip l) = false ∧ startsWith "<COMMANDS" (pystrip l) = false ∧
        startsWith "</" (pystrip l) = true
  | PItem.closed t openL body closeL =>
      IsOpenLine t openL ∧ (∀ x ∈ body, ¬ IsCloseLine t x) ∧ IsCloseLine t closeL

/-- The source lines of a prefix item. -/
def renderItem : PItem → List Str
  | PItem.plain l => [l]
  | PItem.orphan l => [l]
  | PItem.closed _ openL body closeL => openL :: body ++ [closeL]

/-- The source lines of a prefix. -/
def renderItems (items : List PItem) : List Str := (items.map renderItem).flatten

/-- What the reconstructor emits for a prefix item: plain lines pass
through, orphan close tags are skipped, complete sections are copied. -/
def outItem : PItem → List Str
  | PItem.plain l => [l]
  | PItem.orphan _ => []
  | PItem.closed _ openL body closeL => openL :: body ++ [closeL]

/-- What the reconstructor emits for a prefix. -/
def outItems (items : List PItem) : List Str := (items.map outItem).flatten

instance (t : TagKind) (l : Str) : Decidable (IsOpenLine t l) := by
  unfold IsOpenLine
  infer_instance

instance (t : TagKind) (l : Str) : Decidable (IsCloseLine t l) := by
  unfold IsCloseLine
  infer_instance

instance (it : PItem) : Decidable (ItemOK it) := by
  cases it <;> (unfold ItemOK; infer_instance)

/-- Python `pat in s` for strings: some contiguous substring equals
`pat`. -/
def hasSubstring (pat : Str) : Str → Bool
  | [] => pat.isPrefixOf []
  | c :: t => pat.isPrefixOf (c :: t) || hasSubstring pat t

/-! ## General helper lemmas -/

theorem interpGo_nil (st : EdState) : interpGo [] st = st := rfl

theorem interpGo_cons_ne (ch : Char) (rest : Str) (st : EdState) (h : ¬ ch = BEL) :
    interpGo (ch :: rest) st =
      interpGo rest (stepCore ⟨ensureLines st.buffer st.line, st.line, st.col⟩ ch) := by
  conv_lhs => rw [interpGo.eq_def]
  simp only [if_neg h]

theorem interpGo_cons_ne' (ch : Char) (rest : Str) (buf : List Str) (l c : Nat)
    (h : ¬ ch = BEL) :
    interpGo (ch :: rest) (⟨buf, l, c⟩ : EdState) =
      interpGo rest (stepCore ⟨ensureLines buf l, l, c⟩ ch) :=
  interpGo_cons_ne ch rest ⟨buf, l, c⟩ h

theorem interpGo_cons_bel' (d : Char) (rest : Str) (buf : List Str) (l c : Nat) :
    interpGo (BEL :: d :: rest) (⟨buf, l, c⟩ : EdState) =
      interpGo rest
        ⟨ensureLines buf l, (handleArrow d (ensureLines buf l) l c).1,
          (handleArrow d (ensureLines buf l) l c).2⟩ := by
  conv_lhs => rw [interpGo.eq_def]
  simp only [if_pos rfl, if_true, eq_self_iff_true]

theorem interpGo_cons_bel2 (ch d : Char) (rest : Str) (buf : List Str) (l c : Nat)
    (hb : ch = BEL) :
    interpGo (ch :: d :: rest) (⟨buf, l, c⟩ : EdState) =
      interpGo rest
        ⟨ensureLines buf l, (handleArrow d (ensureLines buf l) l c).1,
          (handleArrow d (ensureLines buf l) l c).2⟩ := by
  subst hb
  exact interpGo_cons_bel' d rest buf l c

theorem ensureLines_of_lt {buf : List Str} {l : Nat} (h : l < buf.length) :
    ensureLines buf l = buf := by
  unfold ensureLines
  have h0 : l + 1 - buf.length = 0 := by omega
  simp [h0]

theorem lineAt_set_self {buf : List Str} {l : Nat} (v : Str) (h : l < buf.length) :
    lineAt (buf.set l v) l = v := by
  simp [lineAt, List.getD, List.getElem?_set, h]

theorem set_lineAt_self :
    ∀ (buf : List Str) (l : Nat), l < buf.length → buf.set l (lineAt buf l) = buf := by
  intro buf
  induction buf with
  | nil => intro l h; simp at h
  | cons a t ih =>
    intro l h
    cases l with
    | zero => simp [lineAt, List.getD]
    | succ n =>
      have h' : n < t.length := by simpa using h
      simpa [lineAt, List.getD_cons_succ] using ih n h'

theorem getD_dropLast :
    ∀ (l : List Str) (i : Nat), i < l.length - 1 → l.dropLast.getD i [] = l.getD i [] := by
  intro l
  induction l with
  | nil => intro i h; simp at h
  | cons a t ih =>
    intro i h
    cases t with
    | nil => simp at h
    | cons b t' =>
      cases i with
      | zero => rfl
      | succ j =>
        have h' : j < (b :: t').length - 1 := by simp at h ⊢; omega
        simpa using ih j h'

theorem dropTrailingGo_keep (line : Nat) :
    ∀ (n : Nat) (buf : List Str), line < buf.length →
      line < (dropTrailingGo line n buf).length ∧
        lineAt (dropTrailingGo line n buf) line = lineAt buf line := by
  intro n
  induction n with
  | zero => intro buf h; exact ⟨h, rfl⟩
  | succ n ih =>
    intro buf h
    rw [dropTrailingGo]
    split_ifs with hg
    · obtain ⟨h1, _, h3⟩ := hg
      have hlt : line < buf.dropLast.length := by
        rw [List.length_dropLast]; omega
      have hk := ih buf.dropLast hlt
      refine ⟨hk.1, ?_⟩
      rw [hk.2]
      exact getD_dropLast buf line (by omega)
    · exact ⟨h, rfl⟩

theorem dropTrailingGo_stop (line : Nat) :
    ∀ (n : Nat) (buf : List Str), buf.length - 1 = line → dropTrailingGo line n buf = buf := by
  intro n
  induction n with
  | zero => intro buf _; rfl
  | succ n _ =>
    intro buf h
    rw [dropTrailingGo]
    have : ¬ (1 < buf.length ∧ buf.getLast? = some [] ∧ buf.length - 1 ≠ line) := by
      intro ⟨_, _, h3⟩
      exact h3 h
    rw [if_neg this]

theorem dropWhile_append_all {p : Char → Bool} :
    ∀ {a b : Str}, (∀ c ∈ a, p c = true) → (a ++ b).dropWhile p = b.dropWhile p := by
  intro a
  induction a with
  | nil => intro b _; rfl
  | cons x t ih =>
    intro b h
    rw [List.cons_append, List.dropWhile_cons, if_pos (h x (by simp))]
    exact ih (fun c hc => h c (by simp [hc]))

theorem head_dropWhile_false {p : Char → Bool} :
    ∀ {l : Str} {c : Char} {t : Str}, l.dropWhile p = c :: t → p c = false := by
  intro l
  induction l with
  | nil => intro c t h; simp at h
  | cons a l' ih =>
    intro c t h
    rw [List.dropWhile_cons] at h
    by_cases hp : p a
    · rw [if_pos hp] at h; exact ih h
    · rw [if_neg hp] at h
      cases h
      simpa using hp

theorem dropWhile_idem {p : Char → Bool} (l : Str) :
    (l.dropWhile p).dropWhile p = l.dropWhile p := by
  cases h : l.dropWhile p with
  | nil => rfl
  | cons c t =>
    rw [List.dropWhile_cons]
    simp [head_dropWhile_false h]

theorem rstrip_append (l : Str) : ∃ w, rstrip l ++ w = l := by
  obtain ⟨t, ht⟩ := @List.dropWhile_suffix Char l.reverse isPySpace
  refine ⟨t.reverse, ?_⟩
  have := congrArg List.reverse ht
  simpa [rstrip, List.reverse_append] using this

theorem pystrip_head_false {l : Str} {c : Char} {t : Str} (h : pystrip l = c :: t) :
    isPySpace c = false := by
  obtain ⟨w, hw⟩ := rstrip_append (lstrip l)
  have hw' : pystrip l ++ w = lstrip l := hw
  rw [h] at hw'
  have hl : lstrip l = c :: (t ++ w) := by
    rw [← hw']
    rfl
  exact head_dropWhile_false hl

theorem lstrip_pystrip (l : Str) : lstrip (pystrip l) = pystrip l := by
  cases h : pystrip l with
  | nil => rfl
  | cons c t =>
    have hc := pystrip_head_false h
    unfold lstrip
    rw [List.dropWhile_cons]
    simp [hc]

theorem rstrip_idem (l : Str) : rstrip (rstrip l) = rstrip l := by
  unfold rstrip
  rw [List.reverse_reverse, dropWhile_idem]

theorem pystrip_idem (l : Str) : pystrip (pystrip l) = pystrip l := by
  show rstrip (lstrip (pystrip l)) = pystrip l
  rw [lstrip_pystrip]
  show rstrip (rstrip (lstrip l)) = rstrip (lstrip l)
  exact rstrip_idem _

theorem pystrip_drop_of_le_indent {l : Str} {k : Nat} (hk : k ≤ indentOf l) :
    pystrip (l.drop k) = pystrip l := by
  have hlen : k ≤ (l.takeWhile isPySpace).length := hk
  have hdrop : l.drop k = (l.takeWhile isPySpace).drop k ++ l.dropWhile isPySpace := by
    conv_lhs => rw [← List.takeWhile_append_dropWhile isPySpace l]
    exact List.drop_append_of_le_length hlen
  have hall : ∀ c ∈ (l.takeWhile isPySpace).drop k, isPySpace c = true := by
    intro c hc
    exact List.mem_takeWhile_imp (List.drop_subset k _ hc)
  have h1 : lstrip (l.drop k) = lstrip l := by
    rw [hdrop]
    show ((l.takeWhile isPySpace).drop k ++ l.dropWhile isPySpace).dropWhile isPySpace = _
    rw [dropWhile_append_all hall, dropWhile_idem]
    rfl
  show rstrip (lstrip (l.drop k)) = rstrip (lstrip l)
  rw [h1]

theorem foldl_min_le_init : ∀ (xs : List Nat) (x : Nat), xs.foldl Nat.min x ≤ x := by
  intro xs
  induction xs with
  | nil => intro x; exact Nat.le_refl x
  | cons a t ih =>
    intro x
    have h1 : (a :: t).foldl Nat.min x = t.foldl Nat.min (Nat.min x a) := rfl
    rw [h1]
    exact Nat.le_trans (ih _) (Nat.min_le_left _ _)

theorem foldl_min_le_mem :
    ∀ (xs : List Nat) (x y : Nat), y = x ∨ y ∈ xs → xs.foldl Nat.min x ≤ y := by
  intro xs
  induction xs with
  | nil =>
    intro x y h
    rcases h with h | h
    · exact h ▸ Nat.le_refl _
    · simp at h
  | cons a t ih =>
    intro x y h
    show t.foldl Nat.min (Nat.min x a) ≤ y
    rcases h with h | h
    · exact h ▸ Nat.le_trans (foldl_min_le_init t _) (Nat.min_le_left _ _)
    · rcases List.mem_cons.mp h with h | h
      · exact h ▸ Nat.le_trans (foldl_min_le_init t _) (Nat.min_le_right _ _)
      · exact ih _ y (Or.inr h)

theorem indentOf_le_length (l : Str) : indentOf l ≤ l.length := by
  unfold indentOf
  simpa using List.Sublist.length_le (List.takeWhile_sublist isPySpace)

theorem map_pystrip_dedent (ls : List Str) :
    (dedentCommandLines ls).map pystrip = ls.map pystrip := by
  unfold dedentCommandLines
  cases ls with
  | nil => rfl
  | cons a t =>
    dsimp only
    cases hne : ((a :: t).filter
        (fun l => !(pystrip l).isEmpty && !((pystrip l).head? == some '#'))).map indentOf with
    | nil => rfl
    | cons x xs =>
      rw [List.map_map]
      refine List.map_congr_left ?_
      intro l hl
      show pystrip (if !(pystrip l).isEmpty then
          if (pystrip l).head? == some '#' then pystrip l
          else if xs.foldl Nat.min x ≤ l.length then l.drop (xs.foldl Nat.min x) else l
        else []) = pystrip l
      by_cases hb : (pystrip l).isEmpty
      · rw [if_neg (by simp [hb])]
        have : pystrip l = [] := by simpa using hb
        rw [this]
        rfl
      · rw [if_pos (by simp [hb])]
        by_cases hcmt : (pystrip l).head? == some '#'
        · rw [if_pos hcmt]
          exact pystrip_idem l
        · rw [if_neg hcmt]
          have hmem : l ∈ (a :: t).filter
              (fun l => !(pystrip l).isEmpty && !((pystrip l).head? == some '#')) := by
            rw [List.mem_filter]
            refine ⟨hl, ?_⟩
            simp only [Bool.and_eq_true, Bool.not_eq_true']
            constructor
            · simpa using hb
            · simpa using hcmt
          have hmem2 : indentOf l ∈ x :: xs := by
            rw [← hne]
            exact List.mem_map_of_mem indentOf hmem
          have hmin : xs.foldl Nat.min x ≤ indentOf l :=
            foldl_min_le_mem xs x (indentOf l) (List.mem_cons.mp hmem2)
          rw [if_pos (Nat.le_trans hmin (indentOf_le_length l))]
          exact pystrip_drop_of_le_indent hmin



theorem processCommandLine_congr (cmap : String → Option String) {l1 l2 : Str}
    (h : pystrip l1 = pystrip l2) :
    processCommandLine cmap l1 = processCommandLine cmap l2 := by
  unfold processCommandLine
  rw [h]

theorem processCommandLines_congr (cmap : String → Option String) :
    ∀ {ls1 ls2 : List Str}, ls1.map pystrip = ls2.map pystrip →
      processCommandLines cmap ls1 = processCommandLines cmap ls2 := by
  intro ls1
  induction ls1 with
  | nil =>
    intro ls2 h
    cases ls2 with
    | nil => rfl
    | cons b t2 => simp at h
  | cons a t ih =>
    intro ls2 h
    cases ls2 with
    | nil => simp at h
    | cons b t2 =>
      simp only [List.map_cons, List.cons.injEq] at h
      unfold processCommandLines
      rw [processCommandLine_congr cmap h.1, ih h.2]

theorem processCommandLines_append (cmap : String → Option String) (xs ys : List Str) :
    processCommandLines cmap (xs ++ ys) =
      ((processCommandLines cmap xs).1 ++ (processCommandLines cmap ys).1,
        (processCommandLines cmap xs).2 ++ (processCommandLines cmap ys).2) := by
  induction xs with
  | nil => simp [processCommandLines]
  | cons a t ih => simp [processCommandLines, ih]

theorem processSections_append (xs ys : List Section) :
    processSections (xs ++ ys) =
      ((processSections xs).1 ++ (processSections ys).1,
        (processSections xs).2 ++ (processSections ys).2) := by
  induction xs with
  | nil => simp [processSections]
  | cons a t ih => simp [processSections, ih]

theorem processCommandsSection_strip (c : Str) (tool : Option String) :
    processCommandsSection c tool =
      processCommandLines (commandMapFor tool) (splitNL (pystrip c)) := by
  unfold processCommandsSection
  exact processCommandLines_congr _ (map_pystrip_dedent _)

theorem processCommandLine_unknown (cmap : String → Option String) (l w1 : Str)
    (restTok : List Str)
    (hne : pystrip l ≠ []) (hcm : ¬ (pystrip l).head? = some '#')
    (htok : splitWs (pystrip l) = w1 :: restTok)
    (hlook : cmap (String.mk (w1.map Char.toUpper)) = none) :
    (processCommandLine cmap l).1 = [] ∧ (processCommandLine cmap l).2.length = 1 := by
  unfold processCommandLine
  have hie : ¬ ((pystrip l).isEmpty = true) := by
    cases hp : pystrip l with
    | nil => exact absurd hp hne
    | cons a t => simp
  rw [if_neg hie, if_neg hcm, htok]
  dsimp only
  cases hc : resolveCount restTok with
  | none => exact ⟨rfl, rfl⟩
  | some k =>
    dsimp only
    rw [hlook]
    exact ⟨rfl, rfl⟩

theorem splitNL_ne_nil : ∀ (s : Str), splitNL s ≠ [] := by
  intro s
  cases s with
  | nil => simp [splitNL]
  | cons c t =>
    rw [splitNL]
    split_ifs
    · simp
    · cases h : splitNL t <;> simp

theorem getD_append_self (pre : List Str) (cur : Str) :
    (pre ++ [cur]).getD pre.length [] = cur := by
  induction pre with
  | nil => rfl
  | cons a t ih => simpa using ih

theorem set_concat (pre : List Str) (cur v : Str) :
    (pre ++ [cur]).set pre.length v = pre ++ [v] := by
  induction pre with
  | nil => rfl
  | cons a t ih => simpa using ih

theorem glueFirst_nil_of_ne {ls : List Str} (h : ls ≠ []) : glueFirst [] ls = ls := by
  cases ls with
  | nil => exact absurd rfl h
  | cons a t => simp [glueFirst]

theorem lineAt_concat (pre : List Str) (cur : Str) :
    lineAt (pre ++ [cur]) pre.length = cur := getD_append_self pre cur

theorem stepCore_nl_end (pre : List Str) (cur : Str) :
    stepCore ⟨pre ++ [cur], pre.length, cur.length⟩ NL =
      ⟨(pre ++ [cur]) ++ [[]], pre.length + 1, 0⟩ := by
  unfold stepCore
  rw [if_pos rfl]
  dsimp only
  have hlt : pre.length < (pre ++ [cur]).length := by simp
  rw [if_pos hlt, lineAt_concat, List.take_length, List.drop_length, set_concat]
  have hlen : pre.length + 1 = (pre ++ [cur]).length := by simp
  rw [hlen, List.insertIdx_length_self]

theorem stepCore_print_end (pre : List Str) (cur : Str) (ch : Char)
    (h32 : 32 ≤ ch.toNat) (h126 : ch.toNat ≤ 126) :
    stepCore ⟨pre ++ [cur], pre.length, cur.length⟩ ch =
      ⟨pre ++ [cur ++ [ch]], pre.length, cur.length + 1⟩ := by
  have hnl : ¬ ch = NL := by
    intro hh; rw [hh] at h32; exact absurd h32 (by decide)
  have hbs : ¬ ch = BS := by
    intro hh; rw [hh] at h32; exact absurd h32 (by decide)
  have htab : ¬ ch = TAB := by
    intro hh; rw [hh] at h32; exact absurd h32 (by decide)
  unfold stepCore
  rw [if_neg hnl, if_neg hbs, if_neg htab, if_pos (And.intro h32 h126)]
  dsimp only
  rw [lineAt_concat, List.take_length, List.drop_length, set_concat]

theorem interpGo_literal :
    ∀ (cs : Str) (pre : List Str) (cur : Str),
      (∀ c ∈ cs, c = NL ∨ (32 ≤ c.toNat ∧ c.toNat ≤ 126)) →
      interpGo cs ⟨pre ++ [cur], pre.length, cur.length⟩ =
        ⟨pre ++ glueFirst cur (splitNL cs),
          (pre ++ glueFirst cur (splitNL cs)).length - 1,
          ((glueFirst cur (splitNL cs)).getLast?.getD []).length⟩ := by
  intro cs
  induction cs with
  | nil =>
    intro pre cur _
    rw [interpGo_nil]
    simp [splitNL, glueFirst]
  | cons ch cs ih =>
    intro pre cur h
    have hlt : pre.length < (pre ++ [cur]).length := by simp
    have hrest : ∀ c ∈ cs, c = NL ∨ (32 ≤ c.toNat ∧ c.toNat ≤ 126) := by
      intro c hc
      exact h c (by simp [hc])
    rcases h ch (by simp) with hnl | hpr
    · subst hnl
      rw [interpGo_cons_ne' _ _ _ _ _ (by decide), ensureLines_of_lt hlt, stepCore_nl_end]
      have hi := ih (pre ++ [cur]) [] hrest
      have hcast : interpGo cs ⟨(pre ++ [cur]) ++ [[]], pre.length + 1, 0⟩ =
          interpGo cs ⟨(pre ++ [cur]) ++ [([] : Str)], (pre ++ [cur]).length,
            ([] : Str).length⟩ := by
        have hlen : pre.length + 1 = (pre ++ [cur]).length := by simp
        rw [hlen]
        rfl
      rw [hcast, hi, glueFirst_nil_of_ne (splitNL_ne_nil cs)]
      have hsp : splitNL (NL :: cs) = [] :: splitNL cs := by
        rw [splitNL.eq_def]
        simp
      rw [hsp]
      obtain ⟨hh, hr, hspt⟩ : ∃ hh hr, splitNL cs = hh :: hr :=
        List.exists_cons_of_ne_nil (splitNL_ne_nil cs)
      rw [hspt]
      simp only [glueFirst, EdState.mk.injEq, List.getLast?_cons_cons, List.append_assoc]
      refine ⟨by simp, by simp, ?_⟩
      cases hr <;> simp
    · rw [interpGo_cons_ne' _ _ _ _ _ (by
        intro hh
        rw [hh] at hpr
        exact absurd hpr.1 (by decide)), ensureLines_of_lt hlt,
        stepCore_print_end pre cur ch hpr.1 hpr.2]
      have hi := ih pre (cur ++ [ch]) hrest
      have hcast : interpGo cs ⟨pre ++ [cur ++ [ch]], pre.length, cur.length + 1⟩ =
          interpGo cs ⟨pre ++ [cur ++ [ch]], pre.length, (cur ++ [ch]).length⟩ := by
        simp
      rw [hcast, hi]
      have hch_nl : ¬ ch = NL := by
        intro hh; rw [hh] at hpr; exact absurd hpr.1 (by decide)
      obtain ⟨hh, hr, hspt⟩ : ∃ hh hr, splitNL cs = hh :: hr :=
        List.exists_cons_of_ne_nil (splitNL_ne_nil cs)
      have hsp : splitNL (ch :: cs) = (ch :: hh) :: hr := by
        rw [splitNL.eq_def]
        simp only [if_neg hch_nl, hspt]
      rw [hsp, hspt]
      simp only [glueFirst, EdState.mk.injEq, List.getLast?_cons_cons, List.append_assoc]
      refine ⟨by simp, by simp, ?_⟩
      cases hr <;> simp




theorem splitNL_cons (x : Char) (t : Str) :
    splitNL (x :: t) = if x = NL then [] :: splitNL t
      else match splitNL t with | [] => [[x]] | h :: r => (x :: h) :: r := by
  rw [splitNL.eq_def]

theorem joinNL_cons_cons (a b : Str) (t : List Str) :
    joinNL (a :: b :: t) = a ++ NL :: joinNL (b :: t) := rfl

theorem mem_splitNL : ∀ (X : Str) (l : Str), l ∈ splitNL X → ∀ c ∈ l, c ∈ X := by
  intro X
  induction X with
  | nil =>
    intro l hl c hc
    simp [splitNL] at hl
    subst hl
    simp at hc
  | cons x t ih =>
    intro l hl c hc
    rw [splitNL_cons] at hl
    by_cases hx : x = NL
    · rw [if_pos hx] at hl
      rcases List.mem_cons.mp hl with h | h
      · subst h; simp at hc
      · exact List.mem_cons_of_mem x (ih l h c hc)
    · rw [if_neg hx] at hl
      obtain ⟨hh, hr, hspt⟩ : ∃ hh hr, splitNL t = hh :: hr :=
        List.exists_cons_of_ne_nil (splitNL_ne_nil t)
      rw [hspt] at hl
      rcases List.mem_cons.mp hl with h | h
      · subst h
        rcases List.mem_cons.mp hc with h2 | h2
        · simp [h2]
        · refine List.mem_cons_of_mem x (ih hh ?_ c h2)
          rw [hspt]
          exact List.mem_cons_self hh hr
      · refine List.mem_cons_of_mem x (ih l ?_ c hc)
        rw [hspt]
        exact List.mem_cons_of_mem hh h

theorem mem_joinNL : ∀ (ls : List Str) (c : Char), c ∈ joinNL ls → c = NL ∨ ∃ l ∈ ls, c ∈ l := by
  intro ls
  induction ls with
  | nil => intro c hc; simp [joinNL] at hc
  | cons a t ih =>
    intro c hc
    cases t with
    | nil =>
      right
      refine ⟨a, by simp, ?_⟩
      simpa [joinNL] using hc
    | cons b t2 =>
      rw [joinNL_cons_cons] at hc
      rcases List.mem_append.mp hc with h | h
      · right; exact ⟨a, by simp, h⟩
      · rcases List.mem_cons.mp h with h2 | h2
        · exact Or.inl h2
        · rcases ih c h2 with h3 | ⟨l, hl, hcl⟩
          · exact Or.inl h3
          · right; exact ⟨l, List.mem_cons_of_mem a hl, hcl⟩

theorem processCode_chars {X : Str}
    (h : ∀ c ∈ X, c = NL ∨ (32 ≤ c.toNat ∧ c.toNat ≤ 126)) :
    ∀ c ∈ processCodeSection X none, c = NL ∨ (32 ≤ c.toNat ∧ c.toNat ≤ 126) := by
  intro c hc
  unfold processCodeSection at hc
  by_cases hne : ((splitNL X).filter (fun l => !(pystrip l).isEmpty)).isEmpty
  · rw [if_pos hne] at hc
    exact h c hc
  · rw [if_neg hne] at hc
    dsimp only at hc
    rcases mem_joinNL _ c hc with hnl | ⟨l, hl, hcl⟩
    · exact Or.inl hnl
    · obtain ⟨l0, hl0, hfl⟩ := List.mem_map.mp hl
      rw [← hfl] at hcl
      by_cases hb : !(pystrip l0).isEmpty
      · rw [if_pos hb] at hcl
        split_ifs at hcl with hmin
        · exact h c (mem_splitNL X l0 hl0 c (List.drop_subset _ l0 hcl))
        · exact h c (mem_splitNL X l0 hl0 c hcl)
      · rw [if_neg hb] at hcl
        simp at hcl



theorem lineAt_last : ∀ (ls : List Str), ls ≠ [] → lineAt ls (ls.length - 1) = ls.getLast?.getD [] := by
  intro ls
  induction ls with
  | nil => intro h; exact absurd rfl h
  | cons a t ih =>
    intro _
    cases t with
    | nil => rfl
    | cons b t2 =>
      have h2 := ih (by simp)
      simpa [lineAt, List.getD_cons_succ, List.getLast?_cons_cons] using h2

theorem interpretStream_literal (t : Str)
    (h : ∀ c ∈ t, c = NL ∨ (32 ≤ c.toNat ∧ c.toNat ≤ 126)) :
    interpretStream t =
      ⟨splitNL t, (splitNL t).length - 1, ((splitNL t).getLast?.getD []).length⟩ := by
  unfold interpretStream
  have h0 := interpGo_literal t [] [] h
  rw [glueFirst_nil_of_ne (splitNL_ne_nil t)] at h0
  simp only [List.nil_append, List.length_nil] at h0
  rw [h0]
  unfold finalizeState
  have hlen : 0 < (splitNL t).length := List.length_pos.mpr (splitNL_ne_nil t)
  rw [if_pos (by omega : (splitNL t).length - 1 < (splitNL t).length)]
  dsimp only
  rw [lineAt_last _ (splitNL_ne_nil t), dropTrailingGo_stop _ _ _ rfl]
  simp

theorem parseStructured_demoScript : parseStructured demoScript = (demoStream, []) := rfl

set_option maxHeartbeats 1000000 in
theorem interpGo_demoStream : interpGo demoStream ⟨[[]], 0, 0⟩ =
    ⟨[("HBeautifulWorld" : String).toList], 0, 10⟩ := by
  have h0 : demoStream = ('H' :: 'e' :: 'l' :: 'l' :: 'o' :: ' ' :: 'W' :: 'o' :: 'r' :: 'l' :: 'd' :: '\x07' :: 'l' :: '\x07' :: 'l' :: '\x07' :: 'l' :: '\x07' :: 'l' :: '\x07' :: 'l' :: '\x08' :: '\x08' :: '\x08' :: '\x08' :: '\x08' :: 'B' :: 'e' :: 'a' :: 'u' :: 't' :: 'i' :: 'f' :: 'u' :: 'l' :: []) := by decide
  rw [h0]
  rw [interpGo_cons_ne' _ _ _ _ _ (by decide)]
  have h1 : stepCore ⟨ensureLines [([] : Str)] 0, 0, 0⟩ 'H' = ⟨[('H' :: [])], 0, 1⟩ := by decide
  rw [h1]
  rw [interpGo_cons_ne' _ _ _ _ _ (by decide)]
  have h2 : stepCore ⟨ensureLines [('H' :: [])] 0, 0, 1⟩ 'e' = ⟨[('H' :: 'e' :: [])], 0, 2⟩ := by decide
  rw [h2]
  rw [interpGo_cons_ne' _ _ _ _ _ (by decide)]
  have h3 : stepCore ⟨ensureLines [('H' :: 'e' :: [])] 0, 0, 2⟩ 'l' = ⟨[('H' :: 'e' :: 'l' :: [])], 0, 3⟩ := by decide
  rw [h3]
  rw [interpGo_cons_ne' _ _ _ _ _ (by decide)]
  have h4 : stepCore ⟨ensureLines [('H' :: 'e' :: 'l' :: [])] 0, 0, 3⟩ 'l' = ⟨[('H' :: 'e' :: 'l' :: 'l' :: [])], 0, 4⟩ := by decide
  rw [h4]
  rw [interpGo_cons_ne' _ _ _ _ _ (by decide)]
  have h5 : stepCore ⟨ensureLines [('H' :: 'e' :: 'l' :: 'l' :: [])] 0, 0, 4⟩ 'o' = ⟨[('H' :: 'e' :: 'l' :: 'l' :: 'o' :: [])], 0, 5⟩ := by decide
  rw [h5]
  rw [interpGo_cons_ne' _ _ _ _ _ (by decide)]
  have h6 : stepCore ⟨ensureLines [('H' :: 'e' :: 'l' :: 'l' :: 'o' :: [])] 0, 0, 5⟩ ' ' = ⟨[('H' :: 'e' :: 'l' :: 'l' :: 'o' :: ' ' :: [])], 0, 6⟩ := by decide
  rw [h6]
  rw [interpGo_cons_ne' _ _ _ _ _ (by decide)]
  have h7 : stepCore ⟨ensureLines [('H' :: 'e' :: 'l' :: 'l' :: 'o' :: ' ' :: [])] 0, 0, 6⟩ 'W' = ⟨[('H' :: 'e' :: 'l' :: 'l' :: 'o' :: ' ' :: 'W' :: [])], 0, 7⟩ := by decide
  rw [h7]
  rw [interpGo_cons_ne' _ _ _ _ _ (by decide)]
  have h8 : stepCore ⟨ensureLines [('H' :: 'e' :: 'l' :: 'l' :: 'o' :: ' ' :: 'W' :: [])] 0, 0, 7⟩ 'o' = ⟨[('H' :: 'e' :: 'l' :: 'l' :: 'o' :: ' ' :: 'W' :: 'o' :: [])], 0, 8⟩ := by decide
  rw [h8]
  rw [interpGo_cons_ne' _ _ _ _ _ (by decide)]
  have h9 : stepCore ⟨ensureLines [('H' :: 'e' :: 'l' :: 'l' :: 'o' :: ' ' :: 'W' :: 'o' :: [])] 0, 0, 8⟩ 'r' = ⟨[('H' :: 'e' :: 'l' :: 'l' :: 'o' :: ' ' :: 'W' :: 'o' :: 'r' :: [])], 0, 9⟩ := by decide
  rw [h9]
  rw [interpGo_cons_ne' _ _ _ _ _ (by decide)]
  have h10 : stepCore ⟨ensureLines [('H' :: 'e' :: 'l' :: 'l' :: 'o' :: ' ' :: 'W' :: 'o' :: 'r' :: [])] 0, 0, 9⟩ 'l' = ⟨[('H' :: 'e' :: 'l' :: 'l' :: 'o' :: ' ' :: 'W' :: 'o' :: 'r' :: 'l' :: [])], 0, 10⟩ := by decide
  rw [h10]
  rw [interpGo_cons_ne' _ _ _ _ _ (by decide)]
  have h11 : stepCore ⟨ensureLines [('H' :: 'e' :: 'l' :: 'l' :: 'o' :: ' ' :: 'W' :: 'o' :: 'r' :: 'l' :: [])] 0, 0, 10⟩ 'd' = ⟨[('H' :: 'e' :: 'l' :: 'l' :: 'o' :: ' ' :: 'W' :: 'o' :: 'r' :: 'l' :: 'd' :: [])], 0, 11⟩ := by decide
  rw [h11]
  rw [interpGo_cons_bel2 _ _ _ _ _ _ (by decide)]
  have h12 : (⟨ensureLines [('H' :: 'e' :: 'l' :: 'l' :: 'o' :: ' ' :: 'W' :: 'o' :: 'r' :: 'l' :: 'd' :: [])] 0, (handleArrow 'l' (ensureLines [('H' :: 'e' :: 'l' :: 'l' :: 'o' :: ' ' :: 'W' :: 'o' :: 'r' :: 'l' :: 'd' :: [])] 0) 0 11).1,
      (handleArrow 'l' (ensureLines [('H' :: 'e' :: 'l' :: 'l' :: 'o' :: ' ' :: 'W' :: 'o' :: 'r' :: 'l' :: 'd' :: [])] 0) 0 11).2⟩ : EdState) = ⟨[('H' :: 'e' :: 'l' :: 'l' :: 'o' :: ' ' :: 'W' :: 'o' :: 'r' :: 'l' :: 'd' :: [])], 0, 10⟩ := by decide
  rw [h12]
  rw [interpGo_cons_bel2 _ _ _ _ _ _ (by decide)]
  have h13 : (⟨ensureLines [('H' :: 'e' :: 'l' :: 'l' :: 'o' :: ' ' :: 'W' :: 'o' :: 'r' :: 'l' :: 'd' :: [])] 0, (handleArrow 'l' (ensureLines [('H' :: 'e' :: 'l' :: 'l' :: 'o' :: ' ' :: 'W' :: 'o' :: 'r' :: 'l' :: 'd' :: [])] 0) 0 10).1,
      (handleArrow 'l' (ensureLines [('H' :: 'e' :: 'l' :: 'l' :: 'o' :: ' ' :: 'W' :: 'o' :: 'r' :: 'l' :: 'd' :: [])] 0) 0 10).2⟩ : EdState) = ⟨[('H' :: 'e' :: 'l' :: 'l' :: 'o' :: ' ' :: 'W' :: 'o' :: 'r' :: 'l' :: 'd' :: [])], 0, 9⟩ := by decide
  rw [h13]
  rw [interpGo_cons_bel2 _ _ _ _ _ _ (by decide)]
  have h14 : (⟨ensureLines [('H' :: 'e' :: 'l' :: 'l' :: 'o' :: ' ' :: 'W' :: 'o' :: 'r' :: 'l' :: 'd' :: [])] 0, (handleArrow 'l' (ensureLines [('H' :: 'e' :: 'l' :: 'l' :: 'o' :: ' ' :: 'W' :: 'o' :: 'r' :: 'l' :: 'd' :: [])] 0) 0 9).1,
      (handleArrow 'l' (ensureLines [('H' :: 'e' :: 'l' :: 'l' :: 'o' :: ' ' :: 'W' :: 'o' :: 'r' :: 'l' :: 'd' :: [])] 0) 0 9).2⟩ : EdState) = ⟨[('H' :: 'e' :: 'l' :: 'l' :: 'o' :: ' ' :: 'W' :: 'o' :: 'r' :: 'l' :: 'd' :: [])], 0, 8⟩ := by decide
  rw [h14]
  rw [interpGo_cons_bel2 _ _ _ _ _ _ (by decide)]
  have h15 : (⟨ensureLines [('H' :: 'e' :: 'l' :: 'l' :: 'o' :: ' ' :: 'W' :: 'o' :: 'r' :: 'l' :: 'd' :: [])] 0, (handleArrow 'l' (ensureLines [('H' :: 'e' :: 'l' :: 'l' :: 'o' :: ' ' :: 'W' :: 'o' :: 'r' :: 'l' :: 'd' :: [])] 0) 0 8).1,
      (handleArrow 'l' (ensureLines [('H' :: 'e' :: 'l' :: 'l' :: 'o' :: ' ' :: 'W' :: 'o' :: 'r' :: 'l' :: 'd' :: [])] 0) 0 8).2⟩ : EdState) = ⟨[('H' :: 'e' :: 'l' :: 'l' :: 'o' :: ' ' :: 'W' :: 'o' :: 'r' :: 'l' :: 'd' :: [])], 0, 7⟩ := by decide
  rw [h15]
  rw [interpGo_cons_bel2 _ _ _ _ _ _ (by decide)]
  have h16 : (⟨ensureLines [('H' :: 'e' :: 'l' :: 'l' :: 'o' :: ' ' :: 'W' :: 'o' :: 'r' :: 'l' :: 'd' :: [])] 0, (handleArrow 'l' (ensureLines [('H' :: 'e' :: 'l' :: 'l' :: 'o' :: ' ' :: 'W' :: 'o' :: 'r' :: 'l' :: 'd' :: [])] 0) 0 7).1,
      (handleArrow 'l' (ensureLines [('H' :: 'e' :: 'l' :: 'l' :: 'o' :: ' ' :: 'W' :: 'o' :: 'r' :: 'l' :: 'd' :: [])] 0) 0 7).2⟩ : EdState) = ⟨[('H' :: 'e' :: 'l' :: 'l' :: 'o' :: ' ' :: 'W' :: 'o' :: 'r' :: 'l' :: 'd' :: [])], 0, 6⟩ := by decide
  rw [h16]
  rw [interpGo_cons_ne' _ _ _ _ _ (by decide)]
  have h17 : stepCore ⟨ensureLines [('H' :: 'e' :: 'l' :: 'l' :: 'o' :: ' ' :: 'W' :: 'o' :: 'r' :: 'l' :: 'd' :: [])] 0, 0, 6⟩ '\x08' = ⟨[('H' :: 'e' :: 'l' :: 'l' :: 'o' :: 'W' :: 'o' :: 'r' :: 'l' :: 'd' :: [])], 0, 5⟩ := by decide
  rw [h17]
  rw [interpGo_cons_ne' _ _ _ _ _ (by decide)]
  have h18 : stepCore ⟨ensureLines [('H' :: 'e' :: 'l' :: 'l' :: 'o' :: 'W' :: 'o' :: 'r' :: 'l' :: 'd' :: [])] 0, 0, 5⟩ '\x08' = ⟨[('H' :: 'e' :: 'l' :: 'l' :: 'W' :: 'o' :: 'r' :: 'l' :: 'd' :: [])], 0, 4⟩ := by decide
  rw [h18]
  rw [interpGo_cons_ne' _ _ _ _ _ (by decide)]
  have h19 : stepCore ⟨ensureLines [('H' :: 'e' :: 'l' :: 'l' :: 'W' :: 'o' :: 'r' :: 'l' :: 'd' :: [])] 0, 0, 4⟩ '\x08' = ⟨[('H' :: 'e' :: 'l' :: 'W' :: 'o' :: 'r' :: 'l' :: 'd' :: [])], 0, 3⟩ := by decide
  rw [h19]
  rw [interpGo_cons_ne' _ _ _ _ _ (by decide)]
  have h20 : stepCore ⟨ensureLines [('H' :: 'e' :: 'l' :: 'W' :: 'o' :: 'r' :: 'l' :: 'd' :: [])] 0, 0, 3⟩ '\x08' = ⟨[('H' :: 'e' :: 'W' :: 'o' :: 'r' :: 'l' :: 'd' :: [])], 0, 2⟩ := by decide
  rw [h20]
  rw [interpGo_cons_ne' _ _ _ _ _ (by decide)]
  have h21 : stepCore ⟨ensureLines [('H' :: 'e' :: 'W' :: 'o' :: 'r' :: 'l' :: 'd' :: [])] 0, 0, 2⟩ '\x08' = ⟨[('H' :: 'W' :: 'o' :: 'r' :: 'l' :: 'd' :: [])], 0, 1⟩ := by decide
  rw [h21]
  rw [interpGo_cons_ne' _ _ _ _ _ (by decide)]
  have h22 : stepCore ⟨ensureLines [('H' :: 'W' :: 'o' :: 'r' :: 'l' :: 'd' :: [])] 0, 0, 1⟩ 'B' = ⟨[('H' :: 'B' :: 'W' :: 'o' :: 'r' :: 'l' :: 'd' :: [])], 0, 2⟩ := by decide
  rw [h22]
  rw [interpGo_cons_ne' _ _ _ _ _ (by decide)]
  have h23 : stepCore ⟨ensureLines [('H' :: 'B' :: 'W' :: 'o' :: 'r' :: 'l' :: 'd' :: [])] 0, 0, 2⟩ 'e' = ⟨[('H' :: 'B' :: 'e' :: 'W' :: 'o' :: 'r' :: 'l' :: 'd' :: [])], 0, 3⟩ := by decide
  rw [h23]
  rw [interpGo_cons_ne' _ _ _ _ _ (by decide)]
  have h24 : stepCore ⟨ensureLines [('H' :: 'B' :: 'e' :: 'W' :: 'o' :: 'r' :: 'l' :: 'd' :: [])] 0, 0, 3⟩ 'a' = ⟨[('H' :: 'B' :: 'e' :: 'a' :: 'W' :: 'o' :: 'r' :: 'l' :: 'd' :: [])], 0, 4⟩ := by decide
  rw [h24]
  rw [interpGo_cons_ne' _ _ _ _ _ (by decide)]
  have h25 : stepCore ⟨ensureLines [('H' :: 'B' :: 'e' :: 'a' :: 'W' :: 'o' :: 'r' :: 'l' :: 'd' :: [])] 0, 0, 4⟩ 'u' = ⟨[('H' :: 'B' :: 'e' :: 'a' :: 'u' :: 'W' :: 'o' :: 'r' :: 'l' :: 'd' :: [])], 0, 5⟩ := by decide
  rw [h25]
  rw [interpGo_cons_ne' _ _ _ _ _ (by decide)]
  have h26 : stepCore ⟨ensureLines [('H' :: 'B' :: 'e' :: 'a' :: 'u' :: 'W' :: 'o' :: 'r' :: 'l' :: 'd' :: [])] 0, 0, 5⟩ 't' = ⟨[('H' :: 'B' :: 'e' :: 'a' :: 'u' :: 't' :: 'W' :: 'o' :: 'r' :: 'l' :: 'd' :: [])], 0, 6⟩ := by decide
  rw [h26]
  rw [interpGo_cons_ne' _ _ _ _ _ (by decide)]
  have h27 : stepCore ⟨ensureLines [('H' :: 'B' :: 'e' :: 'a' :: 'u' :: 't' :: 'W' :: 'o' :: 'r' :: 'l' :: 'd' :: [])] 0, 0, 6⟩ 'i' = ⟨[('H' :: 'B' :: 'e' :: 'a' :: 'u' :: 't' :: 'i' :: 'W' :: 'o' :: 'r' :: 'l' :: 'd' :: [])], 0, 7⟩ := by decide
  rw [h27]
  rw [interpGo_cons_ne' _ _ _ _ _ (by decide)]
  have h28 : stepCore ⟨ensureLines [('H' :: 'B' :: 'e' :: 'a' :: 'u' :: 't' :: 'i' :: 'W' :: 'o' :: 'r' :: 'l' :: 'd' :: [])] 0, 0, 7⟩ 'f' = ⟨[('H' :: 'B' :: 'e' :: 'a' :: 'u' :: 't' :: 'i' :: 'f' :: 'W' :: 'o' :: 'r' :: 'l' :: 'd' :: [])], 0, 8⟩ := by decide
  rw [h28]
  rw [interpGo_cons_ne' _ _ _ _ _ (by decide)]
  have h29 : stepCore ⟨ensureLines [('H' :: 'B' :: 'e' :: 'a' :: 'u' :: 't' :: 'i' :: 'f' :: 'W' :: 'o' :: 'r' :: 'l' :: 'd' :: [])] 0, 0, 8⟩ 'u' = ⟨[('H' :: 'B' :: 'e' :: 'a' :: 'u' :: 't' :: 'i' :: 'f' :: 'u' :: 'W' :: 'o' :: 'r' :: 'l' :: 'd' :: [])], 0, 9⟩ := by decide
  rw [h29]
  rw [interpGo_cons_ne' _ _ _ _ _ (by decide)]
  have h30 : stepCore ⟨ensureLines [('H' :: 'B' :: 'e' :: 'a' :: 'u' :: 't' :: 'i' :: 'f' :: 'u' :: 'W' :: 'o' :: 'r' :: 'l' :: 'd' :: [])] 0, 0, 9⟩ 'l' = ⟨[('H' :: 'B' :: 'e' :: 'a' :: 'u' :: 't' :: 'i' :: 'f' :: 'u' :: 'l' :: 'W' :: 'o' :: 'r' :: 'l' :: 'd' :: [])], 0, 10⟩ := by decide
  rw [h30]
  rw [interpGo_nil]
  decide

theorem interpretStream_demoStream :
    interpretStream demoStream = ⟨[("HBeautifulWorld" : String).toList], 0, 10⟩ := by
  unfold interpretStream
  rw [interpGo_demoStream]
  decide

/-! ## Theorems for the frozen claims -/

/-- C1 — interpreting any canonical stream terminates (the interpreter is
a total function) and yields a buffer with at least one line and a cursor
within bounds: `line < buffer length` and `column ≤ length of
buffer[line]` at the point the interpreter yields control. -/
theorem interpret_stream_inbounds (s : Str) :
    0 < (interpretStream s).buffer.length ∧
      (interpretStream s).line < (interpretStream s).buffer.length ∧
      (interpretStream s).col ≤
        (lineAt (interpretStream s).buffer (interpretStream s).line).length := by
  unfold interpretStream finalizeState
  split_ifs with hlt
  · dsimp only
    have hk := dropTrailingGo_keep (interpGo s ⟨[[]], 0, 0⟩).line
      (interpGo s ⟨[[]], 0, 0⟩).buffer.length (interpGo s ⟨[[]], 0, 0⟩).buffer hlt
    refine ⟨by omega, hk.1, ?_⟩
    rw [lineAt, hk.2]
    exact Nat.min_le_right _ _
  · dsimp only
    have hlen : (interpGo s ⟨[[]], 0, 0⟩).buffer.length <
        ((interpGo s ⟨[[]], 0, 0⟩).buffer ++ [[]]).length := by simp
    have hk := dropTrailingGo_keep (interpGo s ⟨[[]], 0, 0⟩).buffer.length
      ((interpGo s ⟨[[]], 0, 0⟩).buffer ++ [[]]).length
      ((interpGo s ⟨[[]], 0, 0⟩).buffer ++ [[]]) hlen
    exact ⟨by omega, hk.1, Nat.zero_le _⟩

/-- C4 counterexample — on the spec's example script the final buffer line
is not `"Beautiful"`: the residual fragment `"World"` (and a leading `"H"`)
survives, because ARROW_LEFT 5 puts the cursor before the `W` and
BACKSPACE 5 deletes `"ello "` to its left. -/
theorem demo_script_not_beautiful :
    (interpretStream (parseStructured demoScript).1).buffer ≠
        [("Beautiful" : String).toList] ∧
      hasSubstring (("World" : String).toList)
        (lineAt (interpretStream (parseStructured demoScript).1).buffer 0) = true := by
  have h1 : (parseStructured demoScript).1 = demoStream := by rw [parseStructured_demoScript]
  rw [h1, interpretStream_demoStream]
  exact ⟨by decide, by decide⟩

/-- C4 amended — the example script compiles to the stream
`"Hello World"` + five ARROW_LEFT + five BACKSPACE + `"Beautiful"`, and
interpreting it yields the single buffer line `"HBeautifulWorld"` with the
cursor at column 10 (after `"Beautiful"`): the five backspaces delete
`"ello "`, so the fragments `"H"` and `"World"` remain around the inserted
text. -/
theorem demo_script_final_state :
    parseStructured demoScript = (demoStream, []) ∧
      interpretStream (parseStructured demoScript).1 =
        ⟨[("HBeautifulWorld" : String).toList], 0, 10⟩ := by
  refine ⟨parseStructured_demoScript, ?_⟩
  rw [parseStructured_demoScript]
  exact interpretStream_demoStream

/-- C2 — the compiler is a pure function of the script text: compiling the
same script twice yields byte-identical canonical streams (and identical
diagnostics).  The embedding is deterministic by construction — the source
has no stateful or nondeterministic step: section splitting, per-section
processing and assembly are all functions of the script text. -/
theorem compile_twice_identical (s : Str) :
    (parseStructured s).1 = (parseStructured s).1 ∧
      (parseStructured s).2 = (parseStructured s).2 :=
  ⟨rfl, rfl⟩

/-- C3 counterexample — a Down directive on a one-line buffer with the
cursor on the last line moves the cursor line to the buffer length itself,
violating the claimed strict bound `line < buffer length`. -/
theorem down_exceeds_buffer_length :
    handleArrow 'd' [[]] 0 0 = (1, 0) ∧
      ¬ (handleArrow 'd' [[]] 0 0).1 < ([[]] : List Str).length := by
  constructor
  · rfl
  · decide

set_option maxHeartbeats 1000000 in
/-- C3 amended — every navigation directive is total and leaves the cursor
line at most the buffer length; for every directive other than Down and
PageDown the strict invariant `line < buffer length` is preserved.  Down
and PageDown clamp to `len(buffer)` (not `len(buffer) - 1`), so they can
land one past the last line; the interpreter's main loop then materialises
an empty line before consuming the next unit. -/
theorem arrow_directive_line_bound (cmd : Char) (buf : List Str) (l c : Nat)
    (h : l < buf.length) :
    (handleArrow cmd buf l c).1 ≤ buf.length ∧
      (cmd ≠ 'd' → cmd ≠ 'D' → (handleArrow cmd buf l c).1 < buf.length) := by
  unfold handleArrow
  simp only [apply_ite (Prod.fst : Nat × Nat → Nat), Nat.min_def]
  constructor
  · split_ifs <;> omega
  · intro hd hD
    simp only [if_neg hd, if_neg hD]
    split_ifs <;> omega

/-- C3 witness for `arrow_directive_line_bound` at a concrete input. -/
theorem arrow_directive_line_bound_witness :
    (0 : Nat) < ([['a']] : List Str).length ∧
      (handleArrow 'u' [['a']] 0 0).1 ≤ ([['a']] : List Str).length ∧
      ((handleArrow 'u' [['a']] 0 0).1 < ([['a']] : List Str).length) := by
  refine ⟨by decide, ?_⟩
  have h := arrow_directive_line_bound 'u' [['a']] 0 0 (by decide)
  exact ⟨h.1, h.2 (by decide) (by decide)⟩

/-- C5 counterexample — a known command outside the movement, backspace
and line-break class: `SLEEP 3` resolves to the expansion `"\x07z"`, yet
the processor emits the sequence three times and raises no diagnostic,
contradicting the claimed emit-once-with-diagnostic rule for every
non-repeatable command. -/
theorem sleep_count_repeats :
    processCommandLine (commandMapFor none) (("SLEEP 3" : String).toList) =
        (("\x07z\x07z\x07z" : String).toList, []) ∧
      commandMapFor none "SLEEP" = some "\x07z" ∧
      ("\x07z\x07z\x07z" : String).toList ≠ ("\x07z" : String).toList :=
  ⟨by decide, by decide, by decide⟩

/-- C5 amended — for every Commands-section line whose command resolves in
the active command table and is neither in the repeatable class
(`ARROW_UP/DOWN/LEFT/RIGHT`, `BACKSPACE`, `ENTER`) nor the
specially-handled `SLEEP` (which the code repeats like the repeatable
class, with no diagnostic), the processor emits the token sequence exactly
once, adds a repetition-ignored diagnostic exactly when the supplied count
exceeds one, and never fails. -/
theorem nonrepeatable_emits_once (tool : Option String) (rawLine w1 : Str)
    (restTok : List Str) (seq : String) (k : Int)
    (hne : pystrip rawLine ≠ [])
    (hcm : ¬ (pystrip rawLine).head? = some '#')
    (htok : splitWs (pystrip rawLine) = w1 :: restTok)
    (hcount : resolveCount restTok = some k)
    (hlook : commandMapFor tool (String.mk (w1.map Char.toUpper)) = some seq)
    (hrep : ¬ String.mk (w1.map Char.toUpper) ∈ repeatableCommands)
    (hsleep : ¬ String.mk (w1.map Char.toUpper) = "SLEEP") :
    processCommandLine (commandMapFor tool) rawLine =
      (seq.toList,
        if 1 < k then [Diag.noRepeat (String.mk (w1.map Char.toUpper))] else []) := by
  unfold processCommandLine
  have hie : ¬ ((pystrip rawLine).isEmpty = true) := by
    cases hp : pystrip rawLine with
    | nil => exact absurd hp hne
    | cons a t => simp
  rw [if_neg hie, if_neg hcm, htok]
  dsimp only
  rw [hcount]
  dsimp only
  rw [hlook]
  dsimp only
  rw [if_neg hrep, if_neg hsleep]
  split_ifs <;> rfl

/-- C5 witness for `nonrepeatable_emits_once` at the line `HOME 3`. -/
theorem nonrepeatable_emits_once_witness :
    (splitWs (pystrip (("HOME 3" : String).toList)) =
        [("HOME" : String).toList, ("3" : String).toList] ∧
      commandMapFor none "HOME" = some "\x07b" ∧
      ¬ ("HOME" : String) ∈ repeatableCommands) ∧
      processCommandLine (commandMapFor none) (("HOME 3" : String).toList) =
        (("\x07b" : String).toList, [Diag.noRepeat "HOME"]) := by
  refine ⟨⟨by decide, by decide, by decide⟩, ?_⟩
  have h := nonrepeatable_emits_once none (("HOME 3" : String).toList)
    (("HOME" : String).toList) [("3" : String).toList] "\x07b" 3
    (by decide) (by decide) (by decide) (by decide) (by decide) (by decide) (by decide)
  simpa using h

/-- C8 — removing a Commands-section line whose command name does not
resolve in the active command table leaves the assembled canonical stream
byte-identical, and processing the section with the line present emits
exactly one more diagnostic: the line is skipped, compilation continues
and never fails. -/
theorem unknown_command_line_removed
    (A B : List Section) (c c' : Str) (tool : Option String)
    (pre post : List Str) (l w1 : Str) (restTok : List Str)
    (hc1 : splitNL (pystrip c) = pre ++ l :: post)
    (hc2 : splitNL (pystrip c') = pre ++ post)
    (hne : pystrip l ≠ [])
    (hcm : ¬ (pystrip l).head? = some '#')
    (htok : splitWs (pystrip l) = w1 :: restTok)
    (hlook : commandMapFor tool (String.mk (w1.map Char.toUpper)) = none) :
    (processSections (A ++ ⟨SKind.commands, c, tool⟩ :: B)).1 =
        (processSections (A ++ ⟨SKind.commands, c', tool⟩ :: B)).1 ∧
      (processCommandsSection c tool).2.length =
        (processCommandsSection c' tool).2.length + 1 := by
  have hu := processCommandLine_unknown (commandMapFor tool) l w1 restTok hne hcm htok hlook
  have hsec1 : processCommandsSection c tool =
      ((processCommandLines (commandMapFor tool) pre).1 ++
          (processCommandLines (commandMapFor tool) post).1,
        (processCommandLines (commandMapFor tool) pre).2 ++
          ((processCommandLine (commandMapFor tool) l).2 ++
            (processCommandLines (commandMapFor tool) post).2)) := by
    rw [processCommandsSection_strip, hc1, processCommandLines_append]
    have hmid : processCommandLines (commandMapFor tool) (l :: post) =
        ((processCommandLine (commandMapFor tool) l).1 ++
            (processCommandLines (commandMapFor tool) post).1,
          (processCommandLine (commandMapFor tool) l).2 ++
            (processCommandLines (commandMapFor tool) post).2) := rfl
    rw [hmid, hu.1]
    simp
  have hsec2 : processCommandsSection c' tool =
      ((processCommandLines (commandMapFor tool) pre).1 ++
          (processCommandLines (commandMapFor tool) post).1,
        (processCommandLines (commandMapFor tool) pre).2 ++
          (processCommandLines (commandMapFor tool) post).2) := by
    rw [processCommandsSection_strip, hc2, processCommandLines_append]
  constructor
  · rw [processSections_append, processSections_append]
    have hA : processSections ((⟨SKind.commands, c, tool⟩ : Section) :: B) =
        ((processCommandsSection c tool).1 ++ (processSections B).1,
          (processCommandsSection c tool).2 ++ (processSections B).2) := rfl
    have hB : processSections ((⟨SKind.commands, c', tool⟩ : Section) :: B) =
        ((processCommandsSection c' tool).1 ++ (processSections B).1,
          (processCommandsSection c' tool).2 ++ (processSections B).2) := rfl
    rw [hA, hB, hsec1, hsec2]
  · rw [hsec1, hsec2]
    simp only [List.length_append, hu.2]
    omega

/-- C8 witness for `unknown_command_line_removed`: the unknown command
`FOO 1` inside a Commands section is skipped with one diagnostic. -/
theorem unknown_command_line_removed_witness :
    (splitNL (pystrip (("FOO 1\nENTER" : String).toList)) =
        [("FOO 1" : String).toList, ("ENTER" : String).toList] ∧
      commandMapFor none "FOO" = none) ∧
      (processSections [⟨SKind.commands, ("FOO 1\nENTER" : String).toList, none⟩]).1 =
        (processSections [⟨SKind.commands, ("ENTER" : String).toList, none⟩]).1 ∧
      (processCommandsSection (("FOO 1\nENTER" : String).toList) none).2.length =
        (processCommandsSection (("ENTER" : String).toList) none).2.length + 1 := by
  refine ⟨⟨by decide, by decide⟩, ?_⟩
  exact unknown_command_line_removed [] [] (("FOO 1\nENTER" : String).toList)
    (("ENTER" : String).toList) none [] [("ENTER" : String).toList]
    (("FOO 1" : String).toList) (("FOO" : String).toList) [("1" : String).toList]
    (by decide) (by decide) (by decide) (by decide) (by decide) (by decide)

/-- C6 amended — for a script whose splitter output is exactly one Code
section with content `X` and no tool (and `X` made of printable ASCII and
newlines, the characters the interpreter types literally), interpreting
the compiled stream yields a buffer equal to the lines of the processed
(dedented) content, with the cursor at the end of the last line. -/
theorem code_only_roundtrip (s X : Str)
    (hsplit : splitSections s = [⟨SKind.code, X, none⟩])
    (hchars : ∀ c ∈ X, c = NL ∨ (32 ≤ c.toNat ∧ c.toNat ≤ 126)) :
    (interpretStream (parseStructured s).1).buffer = splitNL (processCodeSection X none) ∧
      (interpretStream (parseStructured s).1).line =
        (interpretStream (parseStructured s).1).buffer.length - 1 ∧
      (interpretStream (parseStructured s).1).col =
        (lineAt (interpretStream (parseStructured s).1).buffer
          (interpretStream (parseStructured s).1).line).length := by
  have hps : (parseStructured s).1 = processCodeSection X none := by
    unfold parseStructured
    rw [hsplit]
    show (processSections [⟨SKind.code, X, none⟩]).1 = _
    simp [processSections, processOneSection]
  rw [hps, interpretStream_literal _ (processCode_chars hchars)]
  refine ⟨rfl, by simp, ?_⟩
  dsimp only
  rw [lineAt_last _ (splitNL_ne_nil _)]

set_option maxHeartbeats 1000000 in
/-- C6 counterexample — a script whose only Code section has indented
content: the processor strips the common indentation, so the interpreted
buffer is the dedented lines, not the section content's lines. -/
theorem code_roundtrip_dedents :
    splitSections (("<CODE>\n  Hi\n</CODE>" : String).toList) =
        [⟨SKind.code, ("  Hi" : String).toList, none⟩] ∧
      (parseStructured (("<CODE>\n  Hi\n</CODE>" : String).toList)).1 =
        ("Hi" : String).toList ∧
      (interpretStream (parseStructured (("<CODE>\n  Hi\n</CODE>" : String).toList)).1).buffer ≠
        [("  Hi" : String).toList] := by
  refine ⟨by decide, by decide, ?_⟩
  have hps : (parseStructured (("<CODE>\n  Hi\n</CODE>" : String).toList)).1 =
      ("Hi" : String).toList := by decide
  rw [hps]
  have hrun : interpretStream (("Hi" : String).toList) = ⟨[("Hi" : String).toList], 0, 2⟩ := by
    rw [interpretStream_literal _ (by decide)]
    decide
  rw [hrun]
  decide

set_option maxHeartbeats 1000000 in
/-- C6 witness for `code_only_roundtrip` on the script
`<CODE>\nHi\n</CODE>`. -/
theorem code_only_roundtrip_witness :
    (splitSections (("<CODE>\nHi\n</CODE>" : String).toList) =
        [⟨SKind.code, ("Hi" : String).toList, none⟩] ∧
      (∀ c ∈ ("Hi" : String).toList, c = NL ∨ (32 ≤ c.toNat ∧ c.toNat ≤ 126))) ∧
      (interpretStream (parseStructured (("<CODE>\nHi\n</CODE>" : String).toList)).1).buffer =
          splitNL (processCodeSection (("Hi" : String).toList) none) ∧
        (interpretStream (parseStructured (("<CODE>\nHi\n</CODE>" : String).toList)).1).line =
          (interpretStream (parseStructured (("<CODE>\nHi\n</CODE>" : String).toList)).1).buffer.length - 1 ∧
        (interpretStream (parseStructured (("<CODE>\nHi\n</CODE>" : String).toList)).1).col =
          (lineAt (interpretStream (parseStructured (("<CODE>\nHi\n</CODE>" : String).toList)).1).buffer
            (interpretStream (parseStructured (("<CODE>\nHi\n</CODE>" : String).toList)).1).line).length := by
  refine ⟨⟨by decide, by decide⟩, ?_⟩
  exact code_only_roundtrip (("<CODE>\nHi\n</CODE>" : String).toList) (("Hi" : String).toList)
    (by decide) (by decide)

/-- C9 — inserting a printable character and then consuming a Backspace
unit restores the exact prior buffer and cursor, for any state whose
cursor is within bounds. -/
theorem insert_then_backspace_id (buf : List Str) (l c : Nat) (ch : Char)
    (hl : l < buf.length) (hc : c ≤ (lineAt buf l).length)
    (h32 : 32 ≤ ch.toNat) (h126 : ch.toNat ≤ 126) :
    interpGo [ch, BS] ⟨buf, l, c⟩ = ⟨buf, l, c⟩ := by
  have hbel : ¬ ch = BEL := by
    intro h; rw [h] at h32; exact absurd h32 (by decide)
  have hnl : ¬ ch = NL := by
    intro h; rw [h] at h32; exact absurd h32 (by decide)
  have hbs : ¬ ch = BS := by
    intro h; rw [h] at h32; exact absurd h32 (by decide)
  have htab : ¬ ch = TAB := by
    intro h; rw [h] at h32; exact absurd h32 (by decide)
  have hlen : ((lineAt buf l).take c).length = c := by
    rw [List.length_take]; omega
  rw [interpGo_cons_ne _ _ _ hbel]
  have hstep1 : stepCore ⟨ensureLines buf l, l, c⟩ ch =
      ⟨buf.set l ((lineAt buf l).take c ++ ch :: (lineAt buf l).drop c), l, c + 1⟩ := by
    rw [ensureLines_of_lt hl]
    unfold stepCore
    simp only [if_neg hnl, if_neg hbs, if_neg htab, if_pos (And.intro h32 h126)]
  rw [hstep1]
  have hbsbel : ¬ BS = BEL := by decide
  rw [interpGo_cons_ne _ _ _ hbsbel]
  have hlen' : l < (buf.set l ((lineAt buf l).take c ++ ch :: (lineAt buf l).drop c)).length := by
    simpa using hl
  rw [interpGo_nil]
  rw [ensureLines_of_lt hlen']
  unfold stepCore
  have h1 : ¬ BS = NL := by decide
  simp only [if_neg h1, if_pos rfl, if_pos (Nat.succ_pos c)]
  rw [lineAt_set_self _ hl]
  have htake : ((lineAt buf l).take c ++ ch :: (lineAt buf l).drop c).take (c + 1 - 1) =
      (lineAt buf l).take c := by
    simpa using List.take_left' hlen
  have hdrop : ((lineAt buf l).take c ++ ch :: (lineAt buf l).drop c).drop (c + 1) =
      (lineAt buf l).drop c := by
    have hre : (lineAt buf l).take c ++ ch :: (lineAt buf l).drop c =
        ((lineAt buf l).take c ++ [ch]) ++ (lineAt buf l).drop c := by
      simp
    rw [hre]
    refine List.drop_left' ?_
    simp [hlen]
  rw [htake, hdrop, List.set_set, List.take_append_drop, set_lineAt_self buf l hl]
  simp

/-- C9 witness for `insert_then_backspace_id` at a concrete input. -/
theorem insert_then_backspace_id_witness :
    ((0 : Nat) < ([['a', 'b']] : List Str).length ∧
        (1 : Nat) ≤ (lineAt [['a', 'b']] 0).length ∧
        32 ≤ 'x'.toNat ∧ 'x'.toNat ≤ 126) ∧
      interpGo ['x', BS] ⟨[['a', 'b']], 0, 1⟩ = ⟨[['a', 'b']], 0, 1⟩ :=
  ⟨⟨by decide, by decide, by decide, by decide⟩,
    insert_then_backspace_id [['a', 'b']] 0 1 'x' (by decide) (by decide)
      (by decide) (by decide)⟩

/-- C10 — in the Normal state, a Backspace unit consumed at line 0,
column 0 leaves the buffer lines and the cursor unchanged: it is a silent
no-op (the data model guarantees the buffer always has at least one
line). -/
theorem backspace_at_origin_noop (buf : List Str) (h : 0 < buf.length) :
    interpGo [BS] ⟨buf, 0, 0⟩ = ⟨buf, 0, 0⟩ := by
  have hbel : ¬ BS = BEL := by decide
  have hnl : ¬ BS = NL := by decide
  rw [interpGo_cons_ne _ _ _ hbel, interpGo_nil]
  rw [ensureLines_of_lt h]
  unfold stepCore
  simp only [if_neg hnl, if_pos rfl]
  simp

/-- C10 witness for `backspace_at_origin_noop` at a concrete input. -/
theorem backspace_at_origin_noop_witness :
    (0 : Nat) < ([['h', 'i']] : List Str).length ∧
      interpGo [BS] ⟨[['h', 'i']], 0, 0⟩ = ⟨[['h', 'i']], 0, 0⟩ :=
  ⟨by decide, backspace_at_origin_noop [['h', 'i']] (by decide)⟩

end TypingBot

namespace TypingBot
theorem lineAt_of_drop {lines : List Str} {i : Nat} {x : Str} {r : List Str}
    (h : lines.drop i = x :: r) : lineAt lines i = x := by
  have h0 : lines[i]? = some x := by
    have := List.getElem?_drop lines i 0
    rw [h] at this
    simpa using this.symm
  simp [lineAt, List.getD, h0]

theorem drop_succ_of_drop {lines : List Str} {i : Nat} {x : Str} {r : List Str}
    (h : lines.drop i = x :: r) : lines.drop (i + 1) = r := by
  rw [← List.tail_drop, h]
  rfl

theorem lt_length_of_drop {lines : List Str} {i : Nat} {x : Str} {r : List Str}
    (h : lines.drop i = x :: r) : i < lines.length := by
  by_contra hge
  rw [List.drop_eq_nil_of_le (by omega)] at h
  exact List.noConfusion h

theorem drop_add_of_drop {lines : List Str} :
    ∀ (xs : List Str) {i : Nat} {r : List Str},
      lines.drop i = xs ++ r → lines.drop (i + xs.length) = r := by
  intro xs
  induction xs with
  | nil => intro i r h; simpa using h
  | cons x xt ih =>
    intro i r h
    rw [List.cons_append] at h
    have h2 := drop_succ_of_drop h
    have h3 := ih h2
    have : i + (x :: xt).length = i + 1 + xt.length := by simp; omega
    rw [this]
    exact h3

theorem bpInner_found (lines : List Str) (up : Nat) (closing : String) :
    ∀ (body : List Str) (n i : Nat) (content : List Str) (closeL : Str) (rest : List Str),
      lines.drop i = body ++ closeL :: rest →
      (∀ x ∈ body, startsWith closing (pystrip x) = false) →
      startsWith closing (pystrip closeL) = true →
      i + body.length ≤ up →
      body.length + 1 ≤ n →
      bpInner lines up closing n i content = (content ++ body, some closeL, i + body.length + 1) := by
  intro body
  induction body with
  | nil =>
    intro n i content closeL rest hdrop _ hcl hup hn
    cases n with
    | zero => omega
    | succ m =>
      rw [bpInner]
      rw [if_pos (And.intro (by simpa using hup) (lt_length_of_drop (by simpa using hdrop)))]
      rw [lineAt_of_drop (by simpa using hdrop), if_pos hcl]
      simp
  | cons b bt ih =>
    intro n i content closeL rest hdrop hnc hcl hup hn
    cases n with
    | zero => simp at hn
    | succ m =>
      rw [bpInner]
      have hdrop' : lines.drop i = b :: (bt ++ closeL :: rest) := by simpa using hdrop
      rw [if_pos (And.intro (by simp at hup; omega) (lt_length_of_drop hdrop'))]
      rw [lineAt_of_drop hdrop', if_neg (by simp [hnc b (by simp)])]
      have h2 := ih m (i + 1) (content ++ [b]) closeL rest (drop_succ_of_drop hdrop')
        (fun x hx => hnc x (by simp [hx])) hcl (by simp at hup; omega) (by simp at hn; omega)
      rw [h2]
      have he : i + 1 + bt.length + 1 = i + (b :: bt).length + 1 := by simp; omega
      rw [he]
      simp
end TypingBot

namespace TypingBot
theorem bpInner_exhaust (lines : List Str) (up : Nat) (closing : String) :
    ∀ (body : List Str) (n i : Nat) (content : List Str) (rest : List Str),
      lines.drop i = body ++ rest →
      (∀ x ∈ body, startsWith closing (pystrip x) = false) →
      i + body.length = up + 1 →
      body.length + 1 ≤ n →
      bpInner lines up closing n i content = (content ++ body, none, i + body.length) := by
  intro body
  induction body with
  | nil =>
    intro n i content rest _ _ hup hn
    simp at hup
    cases n with
    | zero => simp at hn
    | succ m =>
      rw [bpInner]
      rw [if_neg (by omega)]
      simp
  | cons b bt ih =>
    intro n i content rest hdrop hnc hup hn
    cases n with
    | zero => simp at hn
    | succ m =>
      rw [bpInner]
      have hdrop' : lines.drop i = b :: (bt ++ rest) := by simpa using hdrop
      rw [if_pos (And.intro (by simp at hup; omega) (lt_length_of_drop hdrop'))]
      rw [lineAt_of_drop hdrop', if_neg (by simp [hnc b (by simp)])]
      have h2 := ih m (i + 1) (content ++ [b]) rest (drop_succ_of_drop hdrop')
        (fun x hx => hnc x (by simp [hx])) (by simp at hup; omega) (by simp at hn; omega)
      rw [h2]
      have he : i + 1 + bt.length = i + (b :: bt).length := by simp; omega
      rw [he]
      simp

theorem isPrefixOf_eq_true_iff : ∀ (p l : Str), p.isPrefixOf l = true ↔ ∃ t, l = p ++ t := by
  intro p
  induction p with
  | nil =>
    intro l
    simp [List.isPrefixOf]
  | cons a ps ih =>
    intro l
    cases l with
    | nil => simp [List.isPrefixOf]
    | cons b t =>
      simp only [List.isPrefixOf, Bool.and_eq_true, beq_iff_eq]
      constructor
      · intro ⟨h1, h2⟩
        obtain ⟨w, hw⟩ := (ih t).mp h2
        exact ⟨w, by rw [h1, hw]; rfl⟩
      · intro ⟨w, hw⟩
        rw [List.cons_append] at hw
        cases hw
        exact ⟨rfl, (ih (ps ++ w)).mpr ⟨w, rfl⟩⟩

theorem commands_not_code {l : Str} (h : startsWith "<COMMANDS" l = true) :
    startsWith "<CODE" l = false := by
  unfold startsWith at *
  obtain ⟨t, ht⟩ := (isPrefixOf_eq_true_iff _ _).mp h
  rw [ht]
  rfl
end TypingBot

namespace TypingBot
theorem bpGo_succ (lines : List Str) (up n i : Nat) (acc : List Str) :
    bpGo lines up (n + 1) i acc =
      if i ≤ up ∧ i < lines.length then
        (if startsWith "<CODE" (pystrip (lineAt lines i)) ∨
            startsWith "<COMMANDS" (pystrip (lineAt lines i)) then
          (let ty : String :=
            if startsWith "<CODE" (pystrip (lineAt lines i)) then "CODE" else "COMMANDS"
          let r := bpInner lines up ("</" ++ ty) (up + 2) (i + 1) []
          let seg : List Str :=
            match r.2.1 with
            | some closeLine => r.1 ++ [closeLine]
            | none => if r.1.isEmpty then [] else r.1 ++ [("</" ++ ty ++ ">").toList]
          bpGo lines up n r.2.2 (acc ++ [lineAt lines i] ++ seg))
        else if startsWith "</" (pystrip (lineAt lines i)) then bpGo lines up n (i + 1) acc
        else if !((pystrip (lineAt lines i)).head? = some '<' ∧
            (pystrip (lineAt lines i)).getLast? = some '>') then
          bpGo lines up n (i + 1) (acc ++ [lineAt lines i])
        else bpGo lines up n (i + 1) acc)
      else acc := rfl
end TypingBot

namespace TypingBot
theorem not_close_false {t : TagKind} {x : Str} (h : ¬ IsCloseLine t x) :
    startsWith (closeMark t) (pystrip x) = false := by
  unfold IsCloseLine at h
  revert h
  cases startsWith (closeMark t) (pystrip x) <;> simp

theorem bpGo_straddle (lines : List Str) (up : Nat) (ty : TagKind) (openL : Str)
    (body rest : List Str) :
    ∀ (n i : Nat) (acc : List Str),
      lines.drop i = openL :: (body ++ rest) →
      IsOpenLine ty openL →
      body ≠ [] →
      (∀ x ∈ body, ¬ IsCloseLine ty x) →
      i + body.length = up →
      up + 2 ≤ n + i →
      bpGo lines up n i acc = acc ++ openL :: (body ++ [synthClose ty]) := by
  intro n i acc hdrop hopen hbody hnc harith hfuel
  have hblen : 0 < body.length := List.length_pos.mpr hbody
  have hbe : body.isEmpty = false := by
    cases body with
    | nil => exact absurd rfl hbody
    | cons a t => rfl
  cases n with
  | zero => omega
  | succ m =>
    rw [bpGo_succ]
    rw [if_pos (And.intro (by omega) (lt_length_of_drop hdrop))]
    rw [lineAt_of_drop hdrop]
    cases ty with
    | code =>
      have hcode : startsWith "<CODE" (pystrip openL) = true := hopen
      rw [if_pos (Or.inl hcode), if_pos hcode]
      dsimp only
      have hclosing : ("</" ++ "CODE" : String) = "</CODE" := by decide
      rw [hclosing]
      have hinner := bpInner_exhaust lines up "</CODE" body (up + 2) (i + 1) [] rest
        (drop_succ_of_drop hdrop) (fun x hx => not_close_false (hnc x hx))
        (by omega) (by omega)
      rw [hinner]
      simp only [List.nil_append]
      rw [hbe]
      simp only [Bool.false_eq_true, if_false]
      have hsyn : (("</CODE" ++ ">" : String)).toList = synthClose TagKind.code := by
        decide
      rw [hsyn]
      have hidx : i + 1 + body.length = up + 1 := by omega
      rw [hidx]
      cases m with
      | zero => omega
      | succ m2 =>
        rw [bpGo_succ, if_neg (by omega)]
        simp
    | commands =>
      have hcmd : startsWith "<COMMANDS" (pystrip openL) = true := hopen
      have hncode : startsWith "<CODE" (pystrip openL) = false := commands_not_code hcmd
      rw [if_pos (Or.inr hcmd), hncode]
      simp only [Bool.false_eq_true, if_false]
      have hclosing : ("</" ++ "COMMANDS" : String) = "</COMMANDS" := by decide
      rw [hclosing]
      have hinner := bpInner_exhaust lines up "</COMMANDS" body (up + 2) (i + 1) [] rest
        (drop_succ_of_drop hdrop) (fun x hx => not_close_false (hnc x hx))
        (by omega) (by omega)
      rw [hinner]
      simp only [List.nil_append]
      rw [hbe]
      simp only [Bool.false_eq_true, if_false]
      have hsyn : (("</COMMANDS" ++ ">" : String)).toList = synthClose TagKind.commands := by
        decide
      rw [hsyn]
      have hidx : i + 1 + body.length = up + 1 := by omega
      rw [hidx]
      cases m with
      | zero => omega
      | succ m2 =>
        rw [bpGo_succ, if_neg (by omega)]
        simp
end TypingBot

namespace TypingBot
theorem bpGo_items (lines : List Str) (up : Nat) (ty : TagKind) (openL : Str)
    (body rest : List Str)
    (hopen : IsOpenLine ty openL) (hbody : body ≠ [])
    (hnc : ∀ x ∈ body, ¬ IsCloseLine ty x) :
    ∀ (items : List PItem) (n i : Nat) (acc : List Str),
      (∀ it ∈ items, ItemOK it) →
      lines.drop i = renderItems items ++ openL :: (body ++ rest) →
      i + (renderItems items).length + body.length = up →
      up + 2 ≤ n + i →
      bpGo lines up n i acc = acc ++ outItems items ++ openL :: (body ++ [synthClose ty]) := by
  intro items
  induction items with
  | nil =>
    intro n i acc _ hdrop harith hfuel
    have h := bpGo_straddle lines up ty openL body rest n i acc
      (by simpa [renderItems] using hdrop) hopen hbody hnc
      (by simp [renderItems] at harith; omega) hfuel
    simpa [outItems] using h
  | cons it its ih =>
    intro n i acc hok hdrop harith hfuel
    have hokit := hok it (by simp)
    have hoks : ∀ x ∈ its, ItemOK x := fun x hx => hok x (by simp [hx])
    have hri : renderItems (it :: its) = renderItem it ++ renderItems its := by
      simp [renderItems]
    rw [hri] at hdrop harith
    obtain ⟨m, rfl⟩ : ∃ m, n = m + 1 := by
      refine ⟨n - 1, ?_⟩
      have : 1 ≤ n := by
        by_contra hzero
        simp at hzero
        subst hzero
        omega
      omega
    cases it with
    | plain l =>
      obtain ⟨h1, h2, h3, h4⟩ := hokit
      have hdrop' : lines.drop i = l :: (renderItems its ++ (openL :: (body ++ rest))) := by
        simpa [renderItem] using hdrop
      simp only [renderItem, List.singleton_append, List.length_cons] at harith
      rw [bpGo_succ]
      rw [if_pos (And.intro (by omega) (lt_length_of_drop hdrop'))]
      rw [lineAt_of_drop hdrop']
      rw [if_neg (by simp [h1, h2]), if_neg (by simp [h3]), if_pos (by simp [h4])]
      have hrec := ih m (i + 1) (acc ++ [l]) hoks (drop_succ_of_drop hdrop')
        (by omega) (by omega)
      rw [hrec]
      simp [outItems, outItem]
    | orphan l =>
      obtain ⟨h1, h2, h3⟩ := hokit
      have hdrop' : lines.drop i = l :: (renderItems its ++ (openL :: (body ++ rest))) := by
        simpa [renderItem] using hdrop
      simp only [renderItem, List.singleton_append, List.length_cons] at harith
      rw [bpGo_succ]
      rw [if_pos (And.intro (by omega) (lt_length_of_drop hdrop'))]
      rw [lineAt_of_drop hdrop']
      rw [if_neg (by simp [h1, h2]), if_pos h3]
      have hrec := ih m (i + 1) acc hoks (drop_succ_of_drop hdrop')
        (by omega) (by omega)
      rw [hrec]
      simp [outItems, outItem]
    | closed t2 o b cl =>
      obtain ⟨ho, hb, hc⟩ := hokit
      have hdrop' : lines.drop i =
          o :: (b ++ cl :: (renderItems its ++ (openL :: (body ++ rest)))) := by
        simpa [renderItem] using hdrop
      simp [renderItem] at harith
      rw [bpGo_succ]
      rw [if_pos (And.intro (by omega) (lt_length_of_drop hdrop'))]
      rw [lineAt_of_drop hdrop']
      have hdropb : lines.drop (i + 1) =
          b ++ cl :: (renderItems its ++ (openL :: (body ++ rest))) :=
        drop_succ_of_drop hdrop'
      have hinb : ∀ x ∈ b, startsWith (closeMark t2) (pystrip x) = false :=
        fun x hx => not_close_false (hb x hx)
      have hidx2 : i + 1 + b.length + 1 = i + (b.length + 2) := by omega
      have hdroprec : lines.drop (i + 1 + b.length + 1) =
          renderItems its ++ (openL :: (body ++ rest)) := by
        rw [hidx2]
        have := drop_add_of_drop (o :: (b ++ [cl])) (by simpa using hdrop')
        simpa using this
      cases t2 with
      | code =>
        have hcode : startsWith "<CODE" (pystrip o) = true := ho
        rw [if_pos (Or.inl hcode), if_pos hcode]
        dsimp only
        have hclosing : ("</" ++ "CODE" : String) = "</CODE" := by decide
        rw [hclosing]
        have hinner := bpInner_found lines up "</CODE" b (up + 2) (i + 1) [] cl
          (renderItems its ++ (openL :: (body ++ rest))) hdropb hinb hc
          (by omega) (by omega)
        rw [hinner]
        simp only [List.nil_append]
        have hrec := ih m (i + 1 + b.length + 1) (acc ++ [o] ++ (b ++ [cl])) hoks
          hdroprec (by omega) (by omega)
        rw [hrec]
        simp [outItems, outItem]
      | commands =>
        have hcmd : startsWith "<COMMANDS" (pystrip o) = true := ho
        have hncode : startsWith "<CODE" (pystrip o) = false := commands_not_code hcmd
        rw [if_pos (Or.inr hcmd), hncode]
        simp only [Bool.false_eq_true, if_false]
        have hclosing : ("</" ++ "COMMANDS" : String) = "</COMMANDS" := by decide
        rw [hclosing]
        have hinner := bpInner_found lines up "</COMMANDS" b (up + 2) (i + 1) [] cl
          (renderItems its ++ (openL :: (body ++ rest))) hdropb hinb hc
          (by omega) (by omega)
        rw [hinner]
        simp only [List.nil_append]
        have hrec := ih m (i + 1 + b.length + 1) (acc ++ [o] ++ (b ++ [cl])) hoks
          hdroprec (by omega) (by omega)
        rw [hrec]
        simp [outItems, outItem]
end TypingBot

namespace TypingBot
/-- C7 — for a cutoff strictly inside the body of a section (after its open
tag, before any close tag), the partial-prefix reconstructor emits the prefix
items (orphan close tags skipped, complete sections and plain lines copied
verbatim), the open line, the body lines up to the cutoff, and a synthetic
close tag of the same kind. -/
theorem straddling_section_synthetic_close (items : List PItem) (ty : TagKind)
    (openL : Str) (body rest : List Str)
    (hitems : ∀ it ∈ items, ItemOK it)
    (hopen : IsOpenLine ty openL)
    (hbody : body ≠ [])
    (hnc : ∀ x ∈ body, ¬ IsCloseLine ty x) :
    buildPartialLines (renderItems items ++ openL :: (body ++ rest))
        ((renderItems items).length + body.length) =
      outItems items ++ openL :: (body ++ [synthClose ty]) := by
  unfold buildPartialLines
  have h := bpGo_items (renderItems items ++ openL :: (body ++ rest))
    ((renderItems items).length + body.length) ty openL body rest hopen hbody hnc
    items ((renderItems items).length + body.length + 2) 0 [] hitems
    (by simp) (by omega) (by omega)
  simpa using h

set_option maxHeartbeats 1000000 in
/-- C7 counterexample — when the cutoff line is the section's own close tag
(the claim's close tag at or after the cutoff includes this case), the
reconstructor emits the section complete and appends no synthetic close tag,
contradicting lines up to the cutoff followed by a synthetic close tag. -/
theorem cutoff_at_close_tag_no_synthetic :
    buildPartialLines
        [("<CODE>" : String).toList, ("x" : String).toList, ("</CODE>" : String).toList] 2 =
      [("<CODE>" : String).toList, ("x" : String).toList, ("</CODE>" : String).toList] ∧
    buildPartialLines
        [("<CODE>" : String).toList, ("x" : String).toList, ("</CODE>" : String).toList] 2 ≠
      [("<CODE>" : String).toList, ("x" : String).toList, ("</CODE>" : String).toList,
        ("</CODE>" : String).toList] :=
  ⟨by decide, by decide⟩

set_option maxHeartbeats 1000000 in
/-- C7 witness — concrete instance: a plain line, an orphan close tag, then a
CODE section cut two lines into its body; the output keeps the plain line,
drops the orphan tag, and closes the truncated section synthetically. -/
theorem straddling_section_synthetic_close_witness :
    ((∀ it ∈ [PItem.plain ("hello" : String).toList,
          PItem.orphan ("</COMMANDS>" : String).toList], ItemOK it) ∧
        IsOpenLine TagKind.code (("<CODE>" : String).toList) ∧
        ([("a" : String).toList, ("b" : String).toList] : List Str) ≠ [] ∧
        (∀ x ∈ [("a" : String).toList, ("b" : String).toList],
          ¬ IsCloseLine TagKind.code x)) ∧
      buildPartialLines
          (renderItems [PItem.plain ("hello" : String).toList,
              PItem.orphan ("</COMMANDS>" : String).toList] ++
            ("<CODE>" : String).toList ::
              ([("a" : String).toList, ("b" : String).toList] ++
                [("c" : String).toList, ("</CODE>" : String).toList]))
          ((renderItems [PItem.plain ("hello" : String).toList,
              PItem.orphan ("</COMMANDS>" : String).toList]).length + 2) =
        outItems [PItem.plain ("hello" : String).toList,
            PItem.orphan ("</COMMANDS>" : String).toList] ++
          ("<CODE>" : String).toList ::
            ([("a" : String).toList, ("b" : String).toList] ++
              [synthClose TagKind.code]) := by
  refine ⟨⟨by decide, by decide, by decide, by decide⟩, ?_⟩
  exact straddling_section_synthetic_close
    [PItem.plain ("hello" : String).toList, PItem.orphan ("</COMMANDS>" : String).toList]
    TagKind.code (("<CODE>" : String).toList)
    [("a" : String).toList, ("b" : String).toList]
    [("c" : String).toList, ("</CODE>" : String).toList]
    (by decide) (by decide) (by decide) (by decide)
end TypingBot

namespace TypingBot
set_option maxHeartbeats 1000000 in
/-- C8 counterexample — the removed-line identity fails at raw-script level:
the script COMMANDS-open, FOO 1, COMMANDS-close compiles to the empty stream
plus an unknown-command diagnostic, but removing the FOO line leaves a
two-line script the section regex cannot match (it requires a content line
between two newlines), so both tags pass through as literal text and the two
streams are not byte-identical. -/
theorem unknown_command_script_not_identical :
    parseStructured (("<COMMANDS>\nFOO 1\n</COMMANDS>" : String).toList) =
      ([], [Diag.unknownCommand "FOO" (("FOO 1" : String).toList)]) ∧
    parseStructured (("<COMMANDS>\n</COMMANDS>" : String).toList) =
      ((("<COMMANDS>\n</COMMANDS>" : String).toList), []) ∧
    ([] : Str) ≠ (("<COMMANDS>\n</COMMANDS>" : String).toList) :=
  ⟨rfl, rfl, by decide⟩
end TypingBot
